import Mathlib

/-!
Verification development for the peptide-to-protein mapping engine
(PeptideIndexing::run in src/src/openms/source/ANALYSIS/ID/PeptideIndexing.cpp).

The engine is shallowly embedded: the C++ vectors become Lean lists, the
ordered OpenMS Map and std::set containers become association lists and
sorted duplicate-free lists, and the in-place mutation of the three
in/out parameters of run (proteins, prot_ids, pep_ids) becomes a function
returning the exit code together with the final value of each parameter.
Parts of the program that live outside the repository snapshot (the
Aho-Corasick matcher, the enzymatic digestion filter, sentinel constants
of PeptideEvidence, PeptideHit::extractProteinAccessions) are modelled
from the specification, and each such definition says so in its
doc comment.  The enzyme filter is kept as an explicit functional
parameter of run, so every theorem below holds for an arbitrary filter.
-/

namespace PeptideIndexing

/-- Exit codes of PeptideIndexing::run (only the codes the function
actually returns are modelled). -/
inductive ExitCodes where
  | EXECUTION_OK
  | DATABASE_EMPTY
  | PEPTIDE_IDS_EMPTY
  | DATABASE_CONTAINS_MULTIPLES
  | UNEXPECTED_RESULT
deriving DecidableEq

/-- FASTAFile::FASTAEntry: one protein record of the caller's database. -/
structure FASTAEntry where
  identifier : String
  description : String
  sequence : String
deriving DecidableEq, Inhabited

/-- Configuration options of PeptideIndexing (updateMembers_), restricted
to the options the run logic reads.  decoyAtStart mirrors the member
called prefix underscore (decoy_string_position == "prefix"). -/
structure Config where
  decoy_string : String
  decoyAtStart : Bool
  missing_decoy_action : String
  write_protein_sequence : Bool
  write_protein_description : Bool
  keep_unreferenced_proteins : Bool
  allow_unmatched : Bool
  IL_equivalent : Bool
deriving DecidableEq, Inhabited

/-- Association-list lookup, modelling lookups in the ordered OpenMS Map. -/
def lookupA {β : Type} : List (String × β) → String → Option β
  | [], _ => none
  | kv :: rest, k => if kv.1 = k then some kv.2 else lookupA rest k

/-- Lookup with a default value, modelling Map::operator[] reads that
default-construct the mapped value when the key is absent. -/
def lookupD {β : Type} (m : List (String × β)) (k : String) (d : β) : β :=
  (lookupA m k).getD d

/-- Association-list lookup for Nat keys (runidx_to_protidx reads). -/
def lookupN {β : Type} : List (Nat × β) → Nat → Option β
  | [], _ => none
  | kv :: rest, k => if kv.1 = k then some kv.2 else lookupN rest k

/-- Lookup with default for Nat keys. -/
def lookupND {β : Type} (m : List (Nat × β)) (k : Nat) (d : β) : β :=
  (lookupN m k).getD d

/-- Map::operator[] assignment: overwrite the binding if present,
append it otherwise. -/
def setN {β : Type} : List (Nat × β) → Nat → β → List (Nat × β)
  | [], k, v => [(k, v)]
  | kv :: rest, k, v => if kv.1 = k then (k, v) :: rest else kv :: setN rest k v

/-- String.remove of the stop-codon marker: drop every star character. -/
def removeStars (s : String) : String :=
  String.mk (s.data.filter (fun c => c ≠ '*'))

/-- String.substitute of L by I (IL_equivalent folding). -/
def substituteLI (s : String) : String :=
  String.mk (s.data.map (fun c => if c = 'L' then 'I' else c))

/-- Sequence normalization applied identically to proteins and peptides:
remove stars, then fold L into I when IL_equivalent is set. -/
def normalizeSeq (il : Bool) (s : String) : String :=
  if il then substituteLI (removeStars s) else removeStars s

/-- Result of the protein-database building loop: surviving protein
entries, the normalized corpus prot_DB, the accession-to-index map and
the collected duplicate accessions. -/
structure DBResult where
  survivors : List FASTAEntry
  prot_DB : List String
  acc_to_prot : List (String × Nat)
  duplicate_accessions : List String
deriving DecidableEq

/-- The BUILD Protein DB loop of run.  A repeated accession with an
identical normalized sequence is erased from the caller's protein list
and recorded in duplicate_accessions; a repeated accession with a
differing normalized sequence aborts with DATABASE_CONTAINS_MULTIPLES,
returning the protein list as it stands at that moment (the error
payload).  Otherwise the entry is appended to the corpus and indexed. -/
def buildProtDBAux (il : Bool) :
    List FASTAEntry → List FASTAEntry → List String → List (String × Nat) →
    List String → Except (List FASTAEntry) DBResult
  | [], surv, db, a2p, dups => Except.ok ⟨surv, db, a2p, dups⟩
  | e :: rest, surv, db, a2p, dups =>
    let seq := normalizeSeq il e.sequence
    match lookupA a2p e.identifier with
    | some j =>
      if db.getD j ("") = seq then
        buildProtDBAux il rest surv db a2p (dups ++ [e.identifier])
      else Except.error (surv ++ e :: rest)
    | none =>
      buildProtDBAux il rest (surv ++ [e]) (db ++ [seq])
        (a2p ++ [(e.identifier, surv.length)]) dups

/-- Decidable equality of build results (used only to evaluate the model
on closed inputs). -/
instance {ε α : Type} [DecidableEq ε] [DecidableEq α] : DecidableEq (Except ε α) :=
  fun a b =>
  match a, b with
  | Except.error x, Except.error y =>
    if h : x = y then Decidable.isTrue (by rw [h])
    else Decidable.isFalse (by intro hc; injection hc with h2; exact h h2)
  | Except.ok x, Except.ok y =>
    if h : x = y then Decidable.isTrue (by rw [h])
    else Decidable.isFalse (by intro hc; injection hc with h2; exact h h2)
  | Except.error _, Except.ok _ => Decidable.isFalse (by intro hc; cases hc)
  | Except.ok _, Except.error _ => Decidable.isFalse (by intro hc; cases hc)

/-- Entry point of the database deduplication phase. -/
def buildProtDB (cfg : Config) (proteins : List FASTAEntry) :
    Except (List FASTAEntry) DBResult :=
  buildProtDBAux cfg.IL_equivalent proteins [] [] [] []

/-- PeptideProteinMatchInformation: one raw occurrence of a peptide in a
protein that passed the enzyme filter. -/
structure PeptideProteinMatchInformation where
  protein_index : Nat
  AABefore : Char
  AAAfter : Char
  position : Nat
deriving DecidableEq, Inhabited

/-- The strict ordering of PeptideProteinMatchInformation::operator<,
compared lexicographically by protein index, then position, then the two
flanking residues (characters compared by their code points). -/
def ppLt (a b : PeptideProteinMatchInformation) : Prop :=
  a.protein_index < b.protein_index ∨
    (a.protein_index = b.protein_index ∧
      (a.position < b.position ∨
        (a.position = b.position ∧
          (a.AABefore.toNat < b.AABefore.toNat ∨
            (a.AABefore.toNat = b.AABefore.toNat ∧
              a.AAAfter.toNat < b.AAAfter.toNat)))))

instance : DecidableRel ppLt := fun a b => by
  unfold ppLt; infer_instance

/-- std::set insert into a list kept sorted by ppLt and duplicate-free:
the element is placed before the first strictly larger element and
dropped if already present. -/
def insertMatch (m : PeptideProteinMatchInformation) :
    List PeptideProteinMatchInformation → List PeptideProteinMatchInformation
  | [] => [m]
  | x :: xs =>
    if ppLt m x then m :: x :: xs
    else if m = x then x :: xs
    else x :: insertMatch m xs

/-- The set of distinct matches accumulated from a list of raw matches,
as a sorted duplicate-free list (the contents of a std::set of
PeptideProteinMatchInformation). -/
def matchSet (l : List PeptideProteinMatchInformation) :
    List PeptideProteinMatchInformation :=
  l.foldr insertMatch []

/-- Modelled from the spec: the terminus sentinels
PeptideEvidence::N_TERMINAL_AA and PeptideEvidence::C_TERMINAL_AA of the
external METADATA/PeptideEvidence header (position is at a true protein
terminus). -/
def N_TERMINAL_AA : Char := '['

/-- Modelled from the spec: sentinel for a peptide abutting the
C-terminal end of the protein. -/
def C_TERMINAL_AA : Char := ']'

/-- The match record built by FoundProteinFunctor::addHit for an accepted
occurrence: flanking residues are read from the protein text, with
terminus sentinels at the protein ends. -/
def mkMatch (prot : List Char) (idx_prot pos plen : Nat) :
    PeptideProteinMatchInformation :=
  { protein_index := idx_prot
  , AABefore := if pos = 0 then N_TERMINAL_AA else prot.getD (pos - 1) ' '
  , AAAfter := if prot.length ≤ pos + plen then C_TERMINAL_AA else prot.getD (pos + plen) ' '
  , position := pos }

/-- The enzyme filter: EnzymaticDigestion::isValidProduct is external to
the repository snapshot, so run is parametric in the accept predicate,
which receives the protein text, the 0-based start offset, and the
peptide length, exactly as at the addHit call site. -/
abbrev Filt := List Char → Nat → Nat → Bool

/-- Whether the peptide occurs verbatim in the protein at offset p. -/
def occursAt (pep prot : List Char) (p : Nat) : Bool :=
  pep.isPrefixOf (prot.drop p)

/-- Modelled from the spec: the Aho-Corasick scan of one protein reports
every position at which a peptide of the peptide database occurs in the
protein text (coverage property of section 8; the bounded-ambiguity
extension of the external AhoCorasickAmbiguous pattern is not modelled,
matching the aaa_max = 0 behaviour). -/
def occPositions (pep prot : List Char) : List Nat :=
  (List.range (prot.length + 1 - pep.length)).filter (occursAt pep prot)

/-- The accepted matches contributed by scanning protein i for peptide p,
in scan order: each reported occurrence is passed through the enzyme
filter and, when accepted, turned into a match record by addHit.  An
out-of-range peptide index contributes nothing (the match map is read
through Map::operator[], which yields an empty set for absent keys). -/
def candMatches (flt : Filt) (prot_DB pep_DB : List String) (i p : Nat) :
    List PeptideProteinMatchInformation :=
  if p < pep_DB.length then
    let prot := (prot_DB.getD i ("")).data
    let pep := (pep_DB.getD p ("")).data
    ((occPositions pep prot).filter (fun pos => flt prot pos pep.length)).map
      (fun pos => mkMatch prot i pos pep.length)
  else []

/-- The per-protein accept/reject counter increments of addHit
(filter_passed, filter_rejected) over all peptides scanned against
protein i. -/
def countsFor (flt : Filt) (prot_DB pep_DB : List String) (i : Nat) : Nat × Nat :=
  (((List.range pep_DB.length).map (fun p =>
      let prot := (prot_DB.getD i ("")).data
      let pep := (pep_DB.getD p ("")).data
      (((occPositions pep prot).filter (fun pos => flt prot pos pep.length)).length,
        ((occPositions pep prot).filter (fun pos => !(flt prot pos pep.length))).length))).foldr
    (fun a b => (a.1 + b.1, a.2 + b.2)) (0, 0))

/-- The merged match map obtained from scanning the listed protein
indices: for each peptide index, the std::set of all accepted matches of
those proteins.  The sequential full scan uses idxs = range of the
corpus length. -/
def matchMapOf (flt : Filt) (prot_DB pep_DB : List String) (idxs : List Nat)
    (p : Nat) : List PeptideProteinMatchInformation :=
  matchSet ((idxs.map (fun i => candMatches flt prot_DB pep_DB i p)).flatten)

/-- func.pep_to_prot after the full Aho-Corasick phase: peptide index to
the set of accepted matches over the whole corpus. -/
def pep_to_prot (flt : Filt) (prot_DB pep_DB : List String) :
    Nat → List PeptideProteinMatchInformation :=
  matchMapOf flt prot_DB pep_DB (List.range prot_DB.length)

/-- The per-shard private match map of one parallel worker (its
FoundProteinFunctor func_threads) over the shard's protein indices. -/
def shardMap (flt : Filt) (prot_DB pep_DB : List String) (shard : List Nat)
    (p : Nat) : List PeptideProteinMatchInformation :=
  matchMapOf flt prot_DB pep_DB shard p

/-- The critical-section merge: each shard's sets are inserted into the
global map, in the order the shards appear in the list. -/
def mergeShards (flt : Filt) (prot_DB pep_DB : List String)
    (shards : List (List Nat)) (p : Nat) : List PeptideProteinMatchInformation :=
  matchSet ((shards.map (fun sh => shardMap flt prot_DB pep_DB sh p)).flatten)

/-- The summed accept/reject counters over a list of protein indices. -/
def countersOf (flt : Filt) (prot_DB pep_DB : List String) (idxs : List Nat) :
    Nat × Nat :=
  ((idxs.map (countsFor flt prot_DB pep_DB)).foldr
    (fun a b => (a.1 + b.1, a.2 + b.2)) (0, 0))

/-- The shard-join counter merge: per-shard counters summed over shards. -/
def mergeCounters (flt : Filt) (prot_DB pep_DB : List String)
    (shards : List (List Nat)) : Nat × Nat :=
  ((shards.map (countersOf flt prot_DB pep_DB)).foldr
    (fun a b => (a.1 + b.1, a.2 + b.2)) (0, 0))

/-- Whether a peptide hit is skipped when building pep_DB: after
normalization its sequence still contains the invalid residue U. -/
def skipPep (cfg : Config) (h_seq : String) : Bool :=
  (normalizeSeq cfg.IL_equivalent h_seq).data.contains 'U'

/-- One peptide evidence entry: accession, start and end offsets in the
protein, and the flanking residues. -/
structure PeptideEvidence where
  accession : String
  start : Int
  stop : Int
  aa_before : Char
  aa_after : Char
deriving DecidableEq, Inhabited

/-- One peptide hit: its sequence together with the evidence list and
the two meta values run writes.  The empty string denotes a meta value
that has not been set to any label. -/
structure PeptideHit where
  sequence : String
  evidences : List PeptideEvidence := []
  target_decoy : String := ""
  protein_references : String := ""
deriving DecidableEq, Inhabited

/-- One per-run peptide identification record. -/
structure PeptideIdentification where
  identifier : String
  hits : List PeptideHit
deriving DecidableEq, Inhabited

/-- One protein hit of an identification run. -/
structure ProteinHit where
  accession : String := ""
  sequence : String := ""
  description : String := ""
  target_decoy : String := ""
deriving DecidableEq, Inhabited

/-- One protein identification run. -/
structure ProteinIdentification where
  identifier : String
  hits : List ProteinHit
deriving DecidableEq, Inhabited

/-- All peptide hits of the identification input in input order (the
order of the nested iteration of run over pep_ids and their hits). -/
def flatHits (pep_ids : List PeptideIdentification) : List PeptideHit :=
  (pep_ids.map (fun pid => pid.hits)).flatten

/-- The pep_DB entry contributed by one peptide hit: its normalized
sequence, or nothing when the hit is skipped for containing U. -/
def pepEntry (cfg : Config) (h : PeptideHit) : Option String :=
  let seq := normalizeSeq cfg.IL_equivalent h.sequence
  if seq.data.contains 'U' then none else some seq

/-- BUILD Peptide DB: all peptide hits in input order, normalized, with
hits whose normalized sequence contains U skipped with a warning.  The
indices of this list are the peptide indices of the matcher. -/
def buildPepDB (cfg : Config) (pep_ids : List PeptideIdentification) :
    List String :=
  (flatHits pep_ids).filterMap (pepEntry cfg)

/-- The number of hits skipped for containing U among the first j hits
of a hit list. -/
def skippedBefore (cfg : Config) (hs : List PeptideHit) (j : Nat) : Nat :=
  ((hs.take j).filter (fun h => skipPep cfg h.sequence)).length

/-- runid_to_runidx: run identifier to run index, built once from the
existing protein identifications (later assignments overwrite). -/
def setS {β : Type} : List (String × β) → String → β → List (String × β)
  | [], k, v => [(k, v)]
  | kv :: rest, k, v => if kv.1 = k then (k, v) :: rest else kv :: setS rest k v

/-- The run-identifier index built over prot_ids. -/
def buildRunMap (prot_ids : List ProteinIdentification) : List (String × Nat) :=
  (prot_ids.enum).foldl (fun m iv => setS m iv.2.identifier iv.1) []

/-- Insert a protein index into the sorted duplicate-free index set of a
run (std::set of Size). -/
def insertNat (x : Nat) : List Nat → List Nat
  | [] => [x]
  | y :: ys => if x < y then x :: y :: ys else if x = y then y :: ys else y :: insertNat x ys

/-- Remove a protein index from a run's index set (std::set::erase). -/
def eraseNat (x : Nat) (l : List Nat) : List Nat :=
  l.filter (fun y => y ≠ x)

/-- runidx_to_protidx insertion: record a protein index under a run. -/
def runProtInsert (m : List (Nat × List Nat)) (run_idx prot_idx : Nat) :
    List (Nat × List Nat) :=
  setN m run_idx (insertNat prot_idx (lookupND m run_idx []))

/-- Lazily extend the decoy cache: the accession's decoy flag is derived
from the configured decoy string and position only when the accession is
seen for the first time. -/
def cacheInsert (cfg : Config) (cache : List (String × Bool)) (acc : String) :
    List (String × Bool) :=
  match lookupA cache acc with
  | some _ => cache
  | none =>
    cache ++ [(acc, (cfg.decoyAtStart && cfg.decoy_string.data.isPrefixOf acc.data) ||
                    (!cfg.decoyAtStart && cfg.decoy_string.data.isSuffixOf acc.data))]

/-- The pure decoy predicate on accessions (hasPrefix or hasSuffix of the
decoy string, by configured position). -/
def accIsDecoy (cfg : Config) (acc : String) : Bool :=
  (cfg.decoyAtStart && cfg.decoy_string.data.isPrefixOf acc.data) ||
    (!cfg.decoyAtStart && cfg.decoy_string.data.isSuffixOf acc.data)

/-- Modelled from the spec: PeptideHit::extractProteinAccessions of the
external METADATA header returns the set of distinct accessions
referenced by the hit's evidences (the call site declares it as a
std::set of String). -/
def extractProteinAccessions (h : PeptideHit) : List String :=
  (h.evidences.map (fun e => e.accession)).dedup

/-- The peptide-statistics counters of run. -/
structure AggStats where
  stats_matched_unique : Nat := 0
  stats_matched_multi : Nat := 0
  stats_unmatched : Nat := 0
  stats_count_m_t : Nat := 0
  stats_count_m_d : Nat := 0
  stats_count_m_td : Nat := 0
deriving DecidableEq, Inhabited

/-- The mutable state threaded through the evidence aggregation pass:
the decoy cache, the per-run referenced protein sets, the running
peptide ordinal pep_idx and the statistics counters. -/
structure AggState where
  protein_is_decoy : List (String × Bool) := []
  runidx_to_protidx : List (Nat × List Nat) := []
  pep_idx : Nat := 0
  stats : AggStats := {}
deriving DecidableEq, Inhabited

/-- A state-threading map (the single pass over peptide records). -/
def mapAccumL {σ α β : Type} (f : σ → α → σ × β) : σ → List α → σ × List β
  | s, [] => (s, [])
  | s, a :: as =>
    let sb := f s a
    let rest := mapAccumL f sb.1 as
    (rest.1, sb.2 :: rest.2)

/-- The accession a match refers to: the identifier of the protein at
the match's corpus index. -/
def evAccession (proteins : List FASTAEntry)
    (m : PeptideProteinMatchInformation) : String :=
  (proteins.getD m.protein_index default).identifier

/-- The evidence list a hit receives from the match-map entry at a given
peptide index: one PeptideEvidence per match, with the end offset
computed from the hit's own sequence length. -/
def evidencesFor (proteins : List FASTAEntry)
    (mm : Nat → List PeptideProteinMatchInformation) (idx : Nat)
    (h : PeptideHit) : List PeptideEvidence :=
  (mm idx).map (fun m =>
    ({ accession := evAccession proteins m
     , start := (m.position : Int)
     , stop := (m.position : Int) + (h.sequence.data.length : Int) - 1
     , aa_before := m.AABefore
     , aa_after := m.AAAfter } : PeptideEvidence))

/-- The target/decoy label determined by the two scan flags
matches_decoy and matches_target. -/
def tdOf (md mt : Bool) : String :=
  if md && mt then "target+decoy"
  else if mt then "target"
  else if md then "decoy"
  else ""

/-- The target/decoy counter update matching tdOf. -/
def bumpTD (md mt : Bool) (s : AggStats) : AggStats :=
  if md && mt then { s with stats_count_m_td := s.stats_count_m_td + 1 }
  else if mt then { s with stats_count_m_t := s.stats_count_m_t + 1 }
  else if md then { s with stats_count_m_d := s.stats_count_m_d + 1 }
  else s

/-- The uniqueness counter update matching uniqLabel of the number of
distinct referenced accessions. -/
def bumpUniq (n : Nat) (s : AggStats) : AggStats :=
  if n = 1 then { s with stats_matched_unique := s.stats_matched_unique + 1 }
  else if 1 < n then { s with stats_matched_multi := s.stats_matched_multi + 1 }
  else { s with stats_unmatched := s.stats_unmatched + 1 }

/-- The uniqueness label run assigns given the number of distinct
referenced accessions. -/
def uniqLabel (n : Nat) : String :=
  if n = 1 then "unique" else if 1 < n then "non-unique" else "unmatched"

/-- Processing of one peptide hit in the aggregation pass: replace the
evidence list by the match-map entry at the running ordinal pep_idx,
extend the decoy cache and the per-run protein set, classify
target/decoy status and uniqueness, update the counters, and advance
pep_idx. -/
def stepHit (cfg : Config) (proteins : List FASTAEntry)
    (mm : Nat → List PeptideProteinMatchInformation) (run_idx : Nat)
    (st : AggState) (h : PeptideHit) : AggState × PeptideHit :=
  let ms := mm st.pep_idx
  let evs := evidencesFor proteins mm st.pep_idx h
  let h1 : PeptideHit := { h with evidences := evs }
  let cache := ms.foldl
    (fun c m => cacheInsert cfg c (evAccession proteins m))
    st.protein_is_decoy
  let rmap := ms.foldl (fun r m => runProtInsert r run_idx m.protein_index)
    st.runidx_to_protidx
  let accs := extractProteinAccessions h1
  let matches_decoy := accs.any (fun a => lookupD cache a false)
  let matches_target := accs.any (fun a => !(lookupD cache a false))
  ({ protein_is_decoy := cache, runidx_to_protidx := rmap,
     pep_idx := st.pep_idx + 1,
     stats := bumpUniq accs.length (bumpTD matches_decoy matches_target st.stats) },
   { h1 with target_decoy := tdOf matches_decoy matches_target,
             protein_references := uniqLabel accs.length })

/-- Processing of one peptide identification record: resolve its run
index (Map::operator[] defaults to 0 for unknown identifiers) and
process its hits in order. -/
def stepRun (cfg : Config) (proteins : List FASTAEntry)
    (mm : Nat → List PeptideProteinMatchInformation)
    (runmap : List (String × Nat)) (st : AggState)
    (pid : PeptideIdentification) : AggState × PeptideIdentification :=
  let run_idx := lookupD runmap pid.identifier 0
  let r := mapAccumL (stepHit cfg proteins mm run_idx) st pid.hits
  (r.1, { pid with hits := r.2 })

/-- The full evidence aggregation and classification pass over pep_ids. -/
def aggregate (cfg : Config) (proteins : List FASTAEntry)
    (mm : Nat → List PeptideProteinMatchInformation)
    (runmap : List (String × Nat)) (pep_ids : List PeptideIdentification) :
    AggState × List PeptideIdentification :=
  mapAccumL (stepRun cfg proteins mm runmap) {} pep_ids

/-- The updated form of a retained existing protein hit: its sequence
field is assigned the corpus sequence when write_protein_sequence is set
and the empty string otherwise (the assignment is unconditional in the
source), and its description is overwritten only when
write_protein_description is set. -/
def retainedHit (cfg : Config) (proteins : List FASTAEntry) (pidx : Nat)
    (p_hit : ProteinHit) : ProteinHit :=
  let seq := if cfg.write_protein_sequence then
      (proteins.getD pidx default).sequence
    else ""
  let ph1 : ProteinHit := { p_hit with sequence := seq }
  if cfg.write_protein_description then
    { ph1 with description := (proteins.getD pidx default).description }
  else ph1

/-- Reconciliation of one existing protein hit: a hit whose accession
resolves into the corpus and whose corpus index is still in the run's
master set is retained in updated form and its index is removed from
the master set; any other hit is orphaned and kept only under
keep_unreferenced_proteins. -/
def reconcileStep (cfg : Config) (proteins : List FASTAEntry)
    (acc_to_prot : List (String × Nat)) (st : List ProteinHit × List Nat)
    (p_hit : ProteinHit) : List ProteinHit × List Nat :=
  match lookupA acc_to_prot p_hit.accession with
  | some pidx =>
    if pidx ∈ st.2 then
      (st.1 ++ [retainedHit cfg proteins pidx p_hit], eraseNat pidx st.2)
    else
      (if cfg.keep_unreferenced_proteins then st.1 ++ [p_hit] else st.1, st.2)
  | none =>
    (if cfg.keep_unreferenced_proteins then st.1 ++ [p_hit] else st.1, st.2)

/-- A brand-new protein hit appended for a master-set index that no
existing hit claimed. -/
def newHitFor (cfg : Config) (proteins : List FASTAEntry) (idx : Nat) :
    ProteinHit :=
  let base : ProteinHit := { accession := (proteins.getD idx default).identifier }
  let b1 := if cfg.write_protein_sequence then
      { base with sequence := (proteins.getD idx default).sequence }
    else base
  if cfg.write_protein_description then
    { b1 with description := (proteins.getD idx default).description }
  else b1

/-- Reconciliation of one identification run against its master set. -/
def reconcileRun (cfg : Config) (proteins : List FASTAEntry)
    (acc_to_prot : List (String × Nat)) (masterset : List Nat)
    (pid : ProteinIdentification) : ProteinIdentification :=
  let r := pid.hits.foldl (reconcileStep cfg proteins acc_to_prot) ([], masterset)
  { pid with hits := r.1 ++ r.2.map (newHitFor cfg proteins) }

/-- The protein-hit reconciliation pass over every run. -/
def reconcilePass (cfg : Config) (proteins : List FASTAEntry)
    (acc_to_prot : List (String × Nat)) (runProt : List (Nat × List Nat))
    (prot_ids : List ProteinIdentification) : List ProteinIdentification :=
  (prot_ids.enum).map (fun iv =>
    reconcileRun cfg proteins acc_to_prot (lookupND runProt iv.1 []) iv.2)

/-- The final decoy-annotation loop: every surviving protein hit's
target_decoy meta value is set from the cached decoy map, read through
Map::operator[] whose default for an absent accession is false. -/
def annotateDecoys (cache : List (String × Bool))
    (prot_ids : List ProteinIdentification) : List ProteinIdentification :=
  prot_ids.map (fun pid =>
    { pid with hits := pid.hits.map (fun h =>
        { h with target_decoy := if lookupD cache h.accession false then "decoy" else "target" }) })

/-- The aggregation result of run for a given database-build result:
the matcher is run over the corpus, and the single pass over pep_ids
produces the final aggregation state and the updated peptide records. -/
def aggOf (cfg : Config) (flt : Filt) (r : DBResult)
    (prot_ids : List ProteinIdentification)
    (pep_ids : List PeptideIdentification) :
    AggState × List PeptideIdentification :=
  aggregate cfg r.survivors (pep_to_prot flt r.prot_DB (buildPepDB cfg pep_ids))
    (buildRunMap prot_ids) pep_ids

/-- The reconciled and decoy-annotated protein identifications of run. -/
def recProtOf (cfg : Config) (flt : Filt) (r : DBResult)
    (prot_ids : List ProteinIdentification)
    (pep_ids : List PeptideIdentification) : List ProteinIdentification :=
  annotateDecoys (aggOf cfg flt r prot_ids pep_ids).1.protein_is_decoy
    (reconcilePass cfg r.survivors r.acc_to_prot
      (aggOf cfg flt r prot_ids pep_ids).1.runidx_to_protidx prot_ids)

/-- The part of run that follows a successful database build: build
pep_DB, run the matcher, aggregate and classify, check the missing-decoy
condition (an early UNEXPECTED_RESULT return leaves the protein hits
unreconciled), reconcile and annotate the protein hits, and finally
report unmatched peptides as UNEXPECTED_RESULT when they are not
allowed. -/
def runAfterDB (cfg : Config) (flt : Filt) (r : DBResult)
    (prot_ids : List ProteinIdentification)
    (pep_ids : List PeptideIdentification) :
    ExitCodes × List FASTAEntry × List ProteinIdentification × List PeptideIdentification :=
  if (aggOf cfg flt r prot_ids pep_ids).1.stats.stats_count_m_d +
      (aggOf cfg flt r prot_ids pep_ids).1.stats.stats_count_m_td = 0 ∧
      cfg.missing_decoy_action = "error" then
    (ExitCodes.UNEXPECTED_RESULT, r.survivors, prot_ids,
      (aggOf cfg flt r prot_ids pep_ids).2)
  else if cfg.allow_unmatched = false ∧
      0 < (aggOf cfg flt r prot_ids pep_ids).1.stats.stats_unmatched then
    (ExitCodes.UNEXPECTED_RESULT, r.survivors,
      recProtOf cfg flt r prot_ids pep_ids, (aggOf cfg flt r prot_ids pep_ids).2)
  else
    (ExitCodes.EXECUTION_OK, r.survivors,
      recProtOf cfg flt r prot_ids pep_ids, (aggOf cfg flt r prot_ids pep_ids).2)

/-- PeptideIndexing::run.  The result carries the exit code and the
final contents of the three in/out parameters proteins, prot_ids and
pep_ids. -/
def run (cfg : Config) (flt : Filt) (proteins : List FASTAEntry)
    (prot_ids : List ProteinIdentification)
    (pep_ids : List PeptideIdentification) :
    ExitCodes × List FASTAEntry × List ProteinIdentification × List PeptideIdentification :=
  if proteins = [] then (ExitCodes.DATABASE_EMPTY, proteins, prot_ids, pep_ids)
  else if pep_ids = [] then
    (ExitCodes.PEPTIDE_IDS_EMPTY, proteins,
      if cfg.keep_unreferenced_proteins then prot_ids
      else prot_ids.map (fun pid => { pid with hits := [] }), pep_ids)
  else
    match buildProtDB cfg proteins with
    | Except.error ps => (ExitCodes.DATABASE_CONTAINS_MULTIPLES, ps, prot_ids, pep_ids)
    | Except.ok r => runAfterDB cfg flt r prot_ids pep_ids

/-- The pure target/decoy label determined by the accession list alone:
target+decoy when both a decoy and a non-decoy accession occur, target
when a non-decoy occurs, decoy when a decoy occurs, and the empty string
(no label, unset) for an empty accession list. -/
def tdLabelOf (cfg : Config) (accs : List String) : String :=
  tdOf (accs.any (fun a => accIsDecoy cfg a)) (accs.any (fun a => !(accIsDecoy cfg a)))

/-- Componentwise sum of accept/reject counter pairs. -/
def pairSum (l : List (Nat × Nat)) : Nat × Nat :=
  l.foldr (fun a b => (a.1 + b.1, a.2 + b.2)) (0, 0)

/-- Every accession referenced by some evidence of some peptide hit. -/
def allEvidenceAccs (pep_ids : List PeptideIdentification) : List String :=
  ((flatHits pep_ids).map (fun h => h.evidences.map (fun e => e.accession))).flatten

/- Concrete inputs used by the closed witnesses and counterexamples. -/

/-- Accept-everything enzyme filter (specificity none). -/
def fltAll : Filt := fun _ _ _ => true

/-- A configuration with missing_decoy_action warn and unmatched
peptides allowed. -/
def exCfgWarn : Config :=
  { decoy_string := "DECOY_", decoyAtStart := true,
    missing_decoy_action := "warn", write_protein_sequence := false,
    write_protein_description := false, keep_unreferenced_proteins := false,
    allow_unmatched := true, IL_equivalent := false }

/-- Like exCfgWarn but with missing_decoy_action error and unmatched
peptides disallowed. -/
def exCfgErr : Config :=
  { exCfgWarn with missing_decoy_action := "error", allow_unmatched := false }

/-- Like exCfgWarn but with unmatched peptides disallowed. -/
def exCfgWarnStrict : Config :=
  { exCfgWarn with allow_unmatched := false }

/-- Like exCfgWarn but keeping unreferenced protein hits. -/
def exCfgKeep : Config :=
  { exCfgWarn with keep_unreferenced_proteins := true }

/-- A database with one protein whose sequence contains the peptide ABC
twice. -/
def exProtsTwice : List FASTAEntry := [⟨"P1", "", "ABCABC"⟩]

/-- A database with one protein ABC. -/
def exProtsABC : List FASTAEntry := [⟨"P1", "", "ABC"⟩]

/-- A database listing accession P1 twice with an identical sequence. -/
def exProtsDup : List FASTAEntry := [⟨"P1", "", "AAA"⟩, ⟨"P1", "", "AAA"⟩]

/-- A database listing accession P1 twice with conflicting sequences. -/
def exProtsConf : List FASTAEntry := [⟨"P1", "", "AAA"⟩, ⟨"P1", "", "BBB"⟩]

/-- A database with one protein ABCDEF. -/
def exProtsLong : List FASTAEntry := [⟨"P1", "", "ABCDEF"⟩]

/-- An identification run with no protein hits. -/
def exPidsEmpty : List ProteinIdentification := [⟨"run1", []⟩]

/-- An identification run with an existing protein hit for P1 whose
sequence field holds OLD. -/
def exPidsOld : List ProteinIdentification :=
  [⟨"run1", [{ accession := "P1", sequence := "OLD" }]⟩]

/-- An identification run with an existing protein hit whose accession
carries the decoy marker but matches no corpus entry. -/
def exPidsOrphan : List ProteinIdentification :=
  [⟨"run1", [{ accession := "DECOY_X" }]⟩]

/-- One peptide identification with the single hit ABC. -/
def exPepsABC : List PeptideIdentification := [⟨"run1", [{ sequence := "ABC" }]⟩]

/-- One peptide identification with hits ABC and QQQQ (the latter
matching nothing). -/
def exPepsUnmatched : List PeptideIdentification :=
  [⟨"run1", [{ sequence := "ABC" }, { sequence := "QQQQ" }]⟩]

/-- One peptide identification whose first hit AUA is skipped for the
invalid residue U and whose second hit CDE matches the database. -/
def exPepsSkip : List PeptideIdentification :=
  [⟨"run1", [{ sequence := "AUA" }, { sequence := "CDE" }]⟩]

/-- A target/decoy database pair sharing one sequence. -/
def exProtsTD : List FASTAEntry :=
  [⟨"P1", "", "ABCDEFG"⟩, ⟨"DECOY_P1", "", "ABCDEFG"⟩]

/-- One peptide identification with the single hit CDE. -/
def exPepsCDE : List PeptideIdentification := [⟨"run1", [{ sequence := "CDE" }]⟩]

/- ------------------------------------------------------------------ -/
/- Theorems.                                                           -/
/- ------------------------------------------------------------------ -/

theorem mapAccumL_nil {σ α β : Type} (f : σ → α → σ × β) (s : σ) :
    mapAccumL f s [] = (s, []) := rfl

theorem mapAccumL_cons {σ α β : Type} (f : σ → α → σ × β) (s : σ) (a : α)
    (as : List α) :
    mapAccumL f s (a :: as) =
      ((mapAccumL f (f s a).1 as).1, (f s a).2 :: (mapAccumL f (f s a).1 as).2) :=
  rfl

/-- State-invariant reasoning for the aggregation pass: if each step
preserves an invariant on the threaded state and yields an output
satisfying P, then all outputs satisfy P and the final state keeps the
invariant. -/
theorem mapAccumL_invariant {σ α β : Type} (f : σ → α → σ × β)
    (I : σ → Prop) (P : β → Prop)
    (hf : ∀ s a, I s → I (f s a).1 ∧ P (f s a).2) (l : List α) :
    ∀ s : σ, I s →
      I (mapAccumL f s l).1 ∧ ∀ b ∈ (mapAccumL f s l).2, P b := by
  induction l with
  | nil =>
    intro s hs
    exact ⟨hs, by intro b hb; simp [mapAccumL] at hb⟩
  | cons a as ih =>
    intro s hs
    have h1 := hf s a hs
    have h2 := ih (f s a).1 h1.1
    constructor
    · simpa [mapAccumL_cons] using h2.1
    · intro b hb
      rw [mapAccumL_cons] at hb
      simp only [List.mem_cons] at hb
      rcases hb with hb | hb
      · exact hb ▸ h1.2
      · exact h2.2 b hb

theorem ppLt_irrefl (a : PeptideProteinMatchInformation) : ¬ ppLt a a := by
  unfold ppLt; omega

theorem ppLt_trans {a b c : PeptideProteinMatchInformation}
    (h1 : ppLt a b) (h2 : ppLt b c) : ppLt a c := by
  unfold ppLt at h1 h2 ⊢; omega

theorem ppLt_asymm {a b : PeptideProteinMatchInformation}
    (h : ppLt a b) : ¬ ppLt b a := by
  unfold ppLt at h ⊢; omega

theorem charToNat_inj {a b : Char} (h : a.toNat = b.toNat) : a = b := by
  have hv : a.val = b.val := by
    have h2 : a.val.toNat = b.val.toNat := h
    exact UInt32.eq_of_val_eq (Fin.eq_of_val_eq h2)
  exact Char.eq_of_val_eq hv

theorem ppLt_total {a b : PeptideProteinMatchInformation}
    (h1 : ¬ ppLt a b) (h2 : ¬ ppLt b a) : a = b := by
  unfold ppLt at h1 h2
  rcases a with ⟨pi, ab, aa, pos⟩
  rcases b with ⟨pi2, ab2, aa2, pos2⟩
  simp only [PeptideProteinMatchInformation.mk.injEq]
  simp only [not_or, not_and, not_lt] at h1 h2
  refine ⟨by omega, charToNat_inj (by omega), charToNat_inj (by omega), by omega⟩

theorem mem_insertMatch (x m : PeptideProteinMatchInformation) :
    ∀ l : List PeptideProteinMatchInformation,
      x ∈ insertMatch m l ↔ x = m ∨ x ∈ l := by
  intro l
  induction l with
  | nil => simp [insertMatch]
  | cons y ys ih =>
    by_cases h1 : ppLt m y
    · simp [insertMatch, h1]
    · by_cases h2 : m = y
      · subst h2; simp [insertMatch, h1]
      · simp only [insertMatch, if_neg h1, if_neg h2, List.mem_cons, ih]; tauto

theorem pairwise_insertMatch (m : PeptideProteinMatchInformation) :
    ∀ l : List PeptideProteinMatchInformation,
      l.Pairwise ppLt → (insertMatch m l).Pairwise ppLt := by
  intro l
  induction l with
  | nil => intro _; simp [insertMatch]
  | cons y ys ih =>
    intro hp
    rcases List.pairwise_cons.mp hp with ⟨hy, hys⟩
    by_cases h1 : ppLt m y
    · rw [insertMatch, if_pos h1]
      refine List.pairwise_cons.mpr ⟨?_, hp⟩
      intro z hz
      rcases List.mem_cons.mp hz with hz | hz
      · exact hz ▸ h1
      · exact ppLt_trans h1 (hy z hz)
    · by_cases h2 : m = y
      · rw [insertMatch, if_neg h1, if_pos h2]; exact hp
      · rw [insertMatch, if_neg h1, if_neg h2]
        refine List.pairwise_cons.mpr ⟨?_, ih hys⟩
        intro z hz
        rcases (mem_insertMatch z m ys).mp hz with hz | hz
        · subst hz
          by_cases h3 : ppLt y z
          · exact h3
          · exact absurd (ppLt_total h1 h3) h2
        · exact hy z hz

theorem mem_matchSet (x : PeptideProteinMatchInformation) :
    ∀ l : List PeptideProteinMatchInformation, x ∈ matchSet l ↔ x ∈ l := by
  intro l
  induction l with
  | nil => simp [matchSet]
  | cons y ys ih =>
    show x ∈ insertMatch y (matchSet ys) ↔ _
    rw [mem_insertMatch, ih]
    simp

theorem pairwise_matchSet :
    ∀ l : List PeptideProteinMatchInformation, (matchSet l).Pairwise ppLt := by
  intro l
  induction l with
  | nil => simp [matchSet]
  | cons y ys ih => exact pairwise_insertMatch y (matchSet ys) ih

/-- Two sorted duplicate-free match lists with the same members are
equal: the canonical-form argument behind the shard merge. -/
theorem sorted_mem_ext :
    ∀ l1 l2 : List PeptideProteinMatchInformation,
      l1.Pairwise ppLt → l2.Pairwise ppLt → (∀ x, x ∈ l1 ↔ x ∈ l2) → l1 = l2 := by
  intro l1
  induction l1 with
  | nil =>
    intro l2 _ _ hm
    cases l2 with
    | nil => rfl
    | cons b bs => exact absurd ((hm b).mpr (List.mem_cons_self b bs)) (by simp)
  | cons a as ih =>
    intro l2 h1 h2 hm
    cases l2 with
    | nil => exact absurd ((hm a).mp (List.mem_cons_self a as)) (by simp)
    | cons b bs =>
      rcases List.pairwise_cons.mp h1 with ⟨ha, has⟩
      rcases List.pairwise_cons.mp h2 with ⟨hb, hbs⟩
      have hab : a = b := by
        rcases List.mem_cons.mp ((hm a).mp (List.mem_cons_self a as)) with h | h
        · exact h
        · rcases List.mem_cons.mp ((hm b).mpr (List.mem_cons_self b bs)) with h3 | h3
          · exact h3.symm
          · exact absurd (ppLt_trans (hb a h) (ha b h3)) (ppLt_irrefl b)
      subst hab
      have htails : ∀ x, x ∈ as ↔ x ∈ bs := by
        intro x
        constructor
        · intro hx
          rcases List.mem_cons.mp ((hm x).mp (List.mem_cons.mpr (Or.inr hx))) with h | h
          · exact absurd (h ▸ ha x hx) (ppLt_irrefl x)
          · exact h
        · intro hx
          rcases List.mem_cons.mp ((hm x).mpr (List.mem_cons.mpr (Or.inr hx))) with h | h
          · exact absurd (h ▸ hb x hx) (ppLt_irrefl x)
          · exact h
      rw [ih bs has hbs htails]

/-- matchSet is determined by membership of its input list. -/
theorem matchSet_ext {l1 l2 : List PeptideProteinMatchInformation}
    (h : ∀ x, x ∈ l1 ↔ x ∈ l2) : matchSet l1 = matchSet l2 :=
  sorted_mem_ext (matchSet l1) (matchSet l2) (pairwise_matchSet l1)
    (pairwise_matchSet l2)
    (fun x => by rw [mem_matchSet, mem_matchSet]; exact h x)

theorem pairSum_eq (l : List (Nat × Nat)) :
    pairSum l = ((l.map Prod.fst).sum, (l.map Prod.snd).sum) := by
  induction l with
  | nil => rfl
  | cons a t ih =>
    show (a.1 + (pairSum t).1, a.2 + (pairSum t).2) = _
    rw [ih]; simp

theorem pairSum_append (l1 l2 : List (Nat × Nat)) :
    pairSum (l1 ++ l2) =
      ((pairSum l1).1 + (pairSum l2).1, (pairSum l1).2 + (pairSum l2).2) := by
  rw [pairSum_eq, pairSum_eq, pairSum_eq]
  simp [Nat.add_comm]

theorem pairSum_perm {l1 l2 : List (Nat × Nat)} (h : l1.Perm l2) :
    pairSum l1 = pairSum l2 := by
  rw [pairSum_eq, pairSum_eq, (h.map Prod.fst).sum_eq, (h.map Prod.snd).sum_eq]

theorem pairSum_map_flatten {α : Type} (f : α → Nat × Nat) (L : List (List α)) :
    pairSum ((L.flatten).map f) = pairSum (L.map (fun l => pairSum (l.map f))) := by
  induction L with
  | nil => rfl
  | cons l t ih =>
    show pairSum (((l ++ t.flatten)).map f) = _
    rw [List.map_append, pairSum_append, ih]
    rfl

theorem mem_matchMapOf {flt : Filt} {prot_DB pep_DB : List String}
    {idxs : List Nat} {p : Nat} {x : PeptideProteinMatchInformation} :
    x ∈ matchMapOf flt prot_DB pep_DB idxs p ↔
      ∃ i ∈ idxs, x ∈ candMatches flt prot_DB pep_DB i p := by
  unfold matchMapOf
  rw [mem_matchSet]
  simp only [List.mem_flatten, List.mem_map]
  constructor
  · rintro ⟨l, ⟨i, hi, rfl⟩, hx⟩; exact ⟨i, hi, hx⟩
  · rintro ⟨i, hi, hx⟩; exact ⟨candMatches flt prot_DB pep_DB i p, ⟨i, hi, rfl⟩, hx⟩

theorem mem_mergeShards {flt : Filt} {prot_DB pep_DB : List String}
    {shards : List (List Nat)} {p : Nat} {x : PeptideProteinMatchInformation} :
    x ∈ mergeShards flt prot_DB pep_DB shards p ↔
      ∃ i ∈ shards.flatten, x ∈ candMatches flt prot_DB pep_DB i p := by
  unfold mergeShards shardMap
  rw [mem_matchSet]
  simp only [List.mem_flatten, List.mem_map]
  constructor
  · rintro ⟨l, ⟨sh, hsh, rfl⟩, hx⟩
    rcases mem_matchMapOf.mp hx with ⟨i, hi, hx2⟩
    exact ⟨i, ⟨sh, hsh, hi⟩, hx2⟩
  · rintro ⟨i, ⟨sh, hsh, hi2⟩, hx⟩
    exact ⟨matchMapOf flt prot_DB pep_DB sh p, ⟨sh, hsh, rfl⟩,
      mem_matchMapOf.mpr ⟨i, hi2, hx⟩⟩

/-- C9: the merged MatchMap, the merged accept/reject counters, and the
downstream aggregation (hence every peptide and protein classification,
which is a function of the aggregation result) are independent of the
shard partition and of the shard merge order: any decomposition of the
corpus indices into shards, in any order, yields exactly the sequential
full-scan result. -/
theorem merge_shard_independent (flt : Filt) (prot_DB pep_DB : List String)
    (shards : List (List Nat))
    (h : shards.flatten.Perm (List.range prot_DB.length)) :
    (∀ p, mergeShards flt prot_DB pep_DB shards p = pep_to_prot flt prot_DB pep_DB p) ∧
    mergeCounters flt prot_DB pep_DB shards =
      countersOf flt prot_DB pep_DB (List.range prot_DB.length) ∧
    ∀ (cfg : Config) (surv : List FASTAEntry) (runmap : List (String × Nat))
      (pep_ids : List PeptideIdentification),
      aggregate cfg surv (mergeShards flt prot_DB pep_DB shards) runmap pep_ids =
        aggregate cfg surv (pep_to_prot flt prot_DB pep_DB) runmap pep_ids := by
  have hmap : ∀ p, mergeShards flt prot_DB pep_DB shards p =
      pep_to_prot flt prot_DB pep_DB p := by
    intro p
    have h1 : ∀ x, x ∈ mergeShards flt prot_DB pep_DB shards p ↔
        x ∈ pep_to_prot flt prot_DB pep_DB p := by
      intro x
      rw [mem_mergeShards]
      unfold pep_to_prot
      rw [mem_matchMapOf]
      constructor
      · rintro ⟨i, hi, hx⟩; exact ⟨i, h.mem_iff.mp hi, hx⟩
      · rintro ⟨i, hi, hx⟩; exact ⟨i, h.mem_iff.mpr hi, hx⟩
    have hs1 : (mergeShards flt prot_DB pep_DB shards p).Pairwise ppLt :=
      pairwise_matchSet _
    have hs2 : (pep_to_prot flt prot_DB pep_DB p).Pairwise ppLt :=
      pairwise_matchSet _
    exact sorted_mem_ext _ _ hs1 hs2 h1
  refine ⟨hmap, ?_, ?_⟩
  · have e1 : mergeCounters flt prot_DB pep_DB shards =
        pairSum ((shards.flatten).map (countsFor flt prot_DB pep_DB)) :=
      (pairSum_map_flatten (countsFor flt prot_DB pep_DB) shards).symm
    have e2 : countersOf flt prot_DB pep_DB (List.range prot_DB.length) =
        pairSum ((List.range prot_DB.length).map (countsFor flt prot_DB pep_DB)) := rfl
    rw [e1, e2]
    exact pairSum_perm (h.map (countsFor flt prot_DB pep_DB))
  · intro cfg surv runmap pep_ids
    rw [funext hmap]

/-- Closed witness for merge_shard_independent: a two-protein corpus
partitioned into the reversed shards gives the sequential MatchMap. -/
theorem merge_shard_independent_witness :
    ([[1], [0]] : List (List Nat)).flatten.Perm
        (List.range (["ABCABC", "XABC"] : List String).length) ∧
      (∀ p, mergeShards fltAll ["ABCABC", "XABC"] ["ABC"] [[1], [0]] p =
        pep_to_prot fltAll ["ABCABC", "XABC"] ["ABC"] p) :=
  ⟨by decide,
   (merge_shard_independent fltAll ["ABCABC", "XABC"] ["ABC"] [[1], [0]]
      (by decide)).1⟩

theorem lookupA_append {β : Type} (m1 m2 : List (String × β)) (k : String) :
    lookupA (m1 ++ m2) k =
      match lookupA m1 k with
      | some v => some v
      | none => lookupA m2 k := by
  induction m1 with
  | nil => simp [lookupA]
  | cons kv rest ih =>
    by_cases h : kv.1 = k
    · simp [lookupA, h]
    · simp [lookupA, h, ih]

theorem getD_snoc (db : List String) (x : String) :
    (db ++ [x]).getD db.length ("") = x := by
  induction db with
  | nil => rfl
  | cons y ys ih => simp [ih]

theorem getD_append_left (db : List String) (tail : List String) {j : Nat}
    (h : j < db.length) : (db ++ tail).getD j ("") = db.getD j ("") := by
  induction db generalizing j with
  | nil => exact absurd h (by simp)
  | cons y ys ih =>
    cases j with
    | zero => rfl
    | succ j2 =>
      have : j2 < ys.length := by simpa using h
      simpa using ih this

theorem buildProtDBAux_cons_dup (il : Bool) (e : FASTAEntry)
    (rest surv : List FASTAEntry) (db : List String) (a2p : List (String × Nat))
    (dups : List String) {j : Nat} (h : lookupA a2p e.identifier = some j)
    (heq : db.getD j ("") = normalizeSeq il e.sequence) :
    buildProtDBAux il (e :: rest) surv db a2p dups =
      buildProtDBAux il rest surv db a2p (dups ++ [e.identifier]) := by
  rw [buildProtDBAux, h]
  simp only [if_pos heq]

theorem buildProtDBAux_cons_conf (il : Bool) (e : FASTAEntry)
    (rest surv : List FASTAEntry) (db : List String) (a2p : List (String × Nat))
    (dups : List String) {j : Nat} (h : lookupA a2p e.identifier = some j)
    (heq : db.getD j ("") ≠ normalizeSeq il e.sequence) :
    buildProtDBAux il (e :: rest) surv db a2p dups =
      Except.error (surv ++ e :: rest) := by
  rw [buildProtDBAux, h]
  simp only [if_neg heq]

theorem buildProtDBAux_cons_new (il : Bool) (e : FASTAEntry)
    (rest surv : List FASTAEntry) (db : List String) (a2p : List (String × Nat))
    (dups : List String) (h : lookupA a2p e.identifier = none) :
    buildProtDBAux il (e :: rest) surv db a2p dups =
      buildProtDBAux il rest (surv ++ [e]) (db ++ [normalizeSeq il e.sequence])
        (a2p ++ [(e.identifier, surv.length)]) dups := by
  rw [buildProtDBAux, h]

/-- The database-building loop on a successful run: the corpus is the
normalized sequences of the surviving entries in order, the surviving
accessions are pairwise distinct, the survivors extend the accumulator
by a subsequence of the input, and every input entry lands either in
the survivors or in the duplicate list. -/
theorem buildProtDBAux_ok (il : Bool) :
    ∀ (l surv : List FASTAEntry) (db : List String) (a2p : List (String × Nat))
      (dups : List String) (r : DBResult),
      buildProtDBAux il l surv db a2p dups = Except.ok r →
      db = surv.map (fun e => normalizeSeq il e.sequence) →
      (surv.map (fun e => e.identifier)).Nodup →
      (∀ s, (lookupA a2p s).isSome = true ↔ s ∈ surv.map (fun e => e.identifier)) →
      r.prot_DB = r.survivors.map (fun e => normalizeSeq il e.sequence) ∧
        (r.survivors.map (fun e => e.identifier)).Nodup ∧
        r.survivors.length + r.duplicate_accessions.length =
          surv.length + dups.length + l.length ∧
        ∃ t, r.survivors = surv ++ t ∧ t.Sublist l := by
  intro l
  induction l with
  | nil =>
    intro surv db a2p dups r hr hdb hnd _
    cases hr
    exact ⟨hdb, hnd, by simp, [], by simp, List.Sublist.refl []⟩
  | cons e rest ih =>
    intro surv db a2p dups r hr hdb hnd ha2p
    cases hlook : lookupA a2p e.identifier with
    | some j =>
      by_cases heq : db.getD j ("") = normalizeSeq il e.sequence
      · rw [buildProtDBAux_cons_dup il e rest surv db a2p dups hlook heq] at hr
        rcases ih surv db a2p (dups ++ [e.identifier]) r hr hdb hnd ha2p with
          ⟨h1, h2, h3, t, h4, h5⟩
        refine ⟨h1, h2, by simp at h3 ⊢; omega, t, h4, h5.cons e⟩
      · rw [buildProtDBAux_cons_conf il e rest surv db a2p dups hlook heq] at hr
        cases hr
    | none =>
      rw [buildProtDBAux_cons_new il e rest surv db a2p dups hlook] at hr
      have hnotmem : e.identifier ∉ surv.map (fun e => e.identifier) := by
        intro hmem
        have h3 := (ha2p e.identifier).mpr hmem
        rw [hlook] at h3
        exact absurd h3 (by simp)
      have hnd2 : ((surv ++ [e]).map (fun e => e.identifier)).Nodup := by
        rw [List.map_append]
        refine List.Nodup.append hnd (by simp) ?_
        intro s hs1 hs2
        simp only [List.map_cons, List.map_nil, List.mem_singleton] at hs2
        exact hnotmem (hs2 ▸ hs1)
      have ha2p2 : ∀ s, (lookupA (a2p ++ [(e.identifier, surv.length)]) s).isSome = true ↔
          s ∈ (surv ++ [e]).map (fun e => e.identifier) := by
        intro s
        rw [lookupA_append]
        simp only [List.map_append, List.mem_append, List.map_cons, List.map_nil,
          List.mem_singleton]
        cases hs : lookupA a2p s with
        | some v =>
          have hmem : s ∈ surv.map (fun e => e.identifier) :=
            (ha2p s).mp (by rw [hs]; rfl)
          simpa using Or.inl hmem
        | none =>
          have hs2 : s ∉ surv.map (fun e => e.identifier) := by
            intro hmem
            have h3 := (ha2p s).mpr hmem
            rw [hs] at h3
            exact absurd h3 (by simp)
          show (lookupA ((e.identifier, surv.length) :: []) s).isSome = true ↔ _
          rw [lookupA]
          by_cases he2 : e.identifier = s
          · rw [if_pos he2]
            simpa using Or.inr he2.symm
          · rw [if_neg he2]
            constructor
            · intro hsome
              simp [lookupA] at hsome
            · intro hmem
              rcases hmem with hmem | hmem
              · exact absurd hmem hs2
              · exact absurd hmem.symm he2
      rcases ih (surv ++ [e]) (db ++ [normalizeSeq il e.sequence])
          (a2p ++ [(e.identifier, surv.length)]) dups r hr
          (by rw [hdb]; simp) hnd2 ha2p2 with ⟨h1, h2, h3, t, h4, h5⟩
      refine ⟨h1, h2, by simp at h3 ⊢; omega, e :: t, by simpa using h4, h5.cons₂ e⟩

/-- Once an accession is bound in acc_to_prot to a corpus slot holding a
given normalized sequence, any later input entry with that accession and
a different normalized sequence makes the loop abort. -/
theorem buildProtDBAux_conflict (il : Bool) :
    ∀ (l surv : List FASTAEntry) (db : List String) (a2p : List (String × Nat))
      (dups : List String) (acc : String) (j : Nat),
      lookupA a2p acc = some j →
      j < db.length →
      (∃ e2 ∈ l, e2.identifier = acc ∧
        normalizeSeq il e2.sequence ≠ db.getD j ("")) →
      ∃ p, buildProtDBAux il l surv db a2p dups = Except.error p := by
  intro l
  induction l with
  | nil =>
    intro _ _ _ _ _ _ _ _ hw
    rcases hw with ⟨e2, he2, _⟩
    simp at he2
  | cons x rest ih =>
    intro surv db a2p dups acc j hlook hj hw
    cases hx : lookupA a2p x.identifier with
    | some j2 =>
      by_cases heq : db.getD j2 ("") = normalizeSeq il x.sequence
      · rw [buildProtDBAux_cons_dup il x rest surv db a2p dups hx heq]
        rcases hw with ⟨e2, he2, hid, hne⟩
        rcases List.mem_cons.mp he2 with he | he
        · subst he
          rw [hid, hlook] at hx
          cases hx
          exact absurd heq.symm hne
        · exact ih surv db a2p (dups ++ [x.identifier]) acc j hlook hj ⟨e2, he, hid, hne⟩
      · exact ⟨_, buildProtDBAux_cons_conf il x rest surv db a2p dups hx heq⟩
    | none =>
      rw [buildProtDBAux_cons_new il x rest surv db a2p dups hx]
      have hxa : x.identifier ≠ acc := by
        intro h
        rw [h, hlook] at hx
        cases hx
      have hlook2 : lookupA (a2p ++ [(x.identifier, surv.length)]) acc = some j := by
        rw [lookupA_append, hlook]
      have hgd : (db ++ [normalizeSeq il x.sequence]).getD j ("") = db.getD j ("") :=
        getD_append_left db _ hj
      rcases hw with ⟨e2, he2, hid, hne⟩
      rcases List.mem_cons.mp he2 with he | he
      · subst he
        exact absurd hid hxa
      · exact ih (surv ++ [x]) (db ++ [normalizeSeq il x.sequence])
          (a2p ++ [(x.identifier, surv.length)]) dups acc j hlook2
          (by simp; omega) ⟨e2, he, hid, by rw [hgd]; exact hne⟩

/-- Reaching the first occurrence of a conflicting accession: as long as
the entries before the first occurrence do not carry that accession, the
loop aborts. -/
theorem buildProtDBAux_conflict_top (il : Bool) :
    ∀ (pre : List FASTAEntry) (e : FASTAEntry) (mid : List FASTAEntry)
      (e2 : FASTAEntry) (post : List FASTAEntry) (surv : List FASTAEntry)
      (db : List String) (a2p : List (String × Nat)) (dups : List String),
      (∀ x ∈ pre, x.identifier ≠ e.identifier) →
      e2.identifier = e.identifier →
      normalizeSeq il e2.sequence ≠ normalizeSeq il e.sequence →
      lookupA a2p e.identifier = none →
      db.length = surv.length →
      ∃ p, buildProtDBAux il (pre ++ (e :: (mid ++ (e2 :: post)))) surv db a2p dups =
        Except.error p := by
  intro pre
  induction pre with
  | nil =>
    intro e mid e2 post surv db a2p dups _ hid hne hlook hlen
    rw [List.nil_append,
      buildProtDBAux_cons_new il e (mid ++ (e2 :: post)) surv db a2p dups hlook]
    apply buildProtDBAux_conflict il (mid ++ (e2 :: post)) (surv ++ [e])
      (db ++ [normalizeSeq il e.sequence]) (a2p ++ [(e.identifier, surv.length)])
      dups e.identifier surv.length
    · rw [lookupA_append, hlook, lookupA]
      simp
    · simp
      omega
    · refine ⟨e2, by simp, hid, ?_⟩
      rw [← hlen]
      rw [show (db ++ [normalizeSeq il e.sequence]).getD db.length ("") =
        normalizeSeq il e.sequence from getD_snoc db _]
      exact hne
  | cons x pre2 ih =>
    intro e mid e2 post surv db a2p dups hpre hid hne hlook hlen
    rw [List.cons_append]
    cases hx : lookupA a2p x.identifier with
    | some j2 =>
      by_cases heq : db.getD j2 ("") = normalizeSeq il x.sequence
      · rw [buildProtDBAux_cons_dup il x _ surv db a2p dups hx heq]
        exact ih e mid e2 post surv db a2p (dups ++ [x.identifier])
          (fun y hy => hpre y (List.mem_cons_of_mem x hy)) hid hne hlook hlen
      · exact ⟨_, buildProtDBAux_cons_conf il x _ surv db a2p dups hx heq⟩
    | none =>
      rw [buildProtDBAux_cons_new il x _ surv db a2p dups hx]
      have hxe : x.identifier ≠ e.identifier := hpre x (List.mem_cons_self x pre2)
      have hlook2 : lookupA (a2p ++ [(x.identifier, surv.length)]) e.identifier = none := by
        rw [lookupA_append, hlook, lookupA, if_neg hxe, lookupA]
      exact ih e mid e2 post (surv ++ [x]) (db ++ [normalizeSeq il x.sequence])
        (a2p ++ [(x.identifier, surv.length)]) dups
        (fun y hy => hpre y (List.mem_cons_of_mem x hy)) hid hne hlook2
        (by simp [hlen])

theorem lookupA_snoc_isSome {β : Type} (a2p : List (String × β))
    (ids : List String) (k : String) (v : β)
    (hiff : ∀ s, (lookupA a2p s).isSome = true ↔ s ∈ ids) :
    ∀ s, (lookupA (a2p ++ [(k, v)]) s).isSome = true ↔ s ∈ ids ∨ s = k := by
  intro s
  rw [lookupA_append]
  cases hs : lookupA a2p s with
  | some w =>
    have hmem := (hiff s).mp (by rw [hs]; rfl)
    simp [hmem]
  | none =>
    have hs2 : s ∉ ids := by
      intro hm
      have h3 := (hiff s).mpr hm
      rw [hs] at h3
      exact absurd h3 (by simp)
    show (lookupA ((k, v) :: []) s).isSome = true ↔ _
    rw [lookupA]
    by_cases hk : k = s
    · rw [if_pos hk]
      simpa using Or.inr hk.symm
    · rw [if_neg hk]
      constructor
      · intro hsome
        simp [lookupA] at hsome
      · rintro (hm | hm)
        · exact absurd hm hs2
        · exact absurd hm.symm hk

/-- When no accession repeats, the building loop drops nothing: the
caller's protein list passes through unchanged, and no duplicate is
recorded. -/
theorem buildProtDBAux_nodup (il : Bool) :
    ∀ (l surv : List FASTAEntry) (db : List String) (a2p : List (String × Nat))
      (dups : List String),
      ((surv ++ l).map (fun e => e.identifier)).Nodup →
      (∀ s, (lookupA a2p s).isSome = true ↔ s ∈ surv.map (fun e => e.identifier)) →
      ∃ r, buildProtDBAux il l surv db a2p dups = Except.ok r ∧
        r.survivors = surv ++ l ∧ r.duplicate_accessions = dups := by
  intro l
  induction l with
  | nil =>
    intro surv db a2p dups _ _
    exact ⟨⟨surv, db, a2p, dups⟩, rfl, by simp, rfl⟩
  | cons e rest ih =>
    intro surv db a2p dups hnd ha2p
    have hdisj : e.identifier ∉ surv.map (fun e => e.identifier) := by
      rw [List.map_append, List.nodup_append] at hnd
      intro hmem
      exact hnd.2.2 hmem (by simp)
    have hlook : lookupA a2p e.identifier = none := by
      cases hl : lookupA a2p e.identifier with
      | none => rfl
      | some v =>
        have := (ha2p e.identifier).mp (by rw [hl]; rfl)
        exact absurd this hdisj
    rw [buildProtDBAux_cons_new il e rest surv db a2p dups hlook]
    have hnd2 : (((surv ++ [e]) ++ rest).map (fun e => e.identifier)).Nodup := by
      rw [List.append_assoc, List.singleton_append]
      exact hnd
    have ha2p2 : ∀ s, (lookupA (a2p ++ [(e.identifier, surv.length)]) s).isSome = true ↔
        s ∈ (surv ++ [e]).map (fun e => e.identifier) := by
      intro s
      rw [List.map_append]
      have h4 := lookupA_snoc_isSome a2p (surv.map (fun e => e.identifier))
        e.identifier surv.length ha2p s
      rw [h4]
      simp
    rcases ih (surv ++ [e]) (db ++ [normalizeSeq il e.sequence])
        (a2p ++ [(e.identifier, surv.length)]) dups hnd2 ha2p2 with ⟨r, hr, hs, hd⟩
    refine ⟨r, hr, ?_, hd⟩
    rw [hs, List.append_assoc, List.singleton_append]

theorem runAfterDB_proteins (cfg : Config) (flt : Filt) (r : DBResult)
    (prot_ids : List ProteinIdentification) (pep_ids : List PeptideIdentification) :
    (runAfterDB cfg flt r prot_ids pep_ids).2.1 = r.survivors := by
  simp only [runAfterDB]
  split
  · rfl
  · split <;> rfl

theorem run_eq_runAfterDB (cfg : Config) (flt : Filt) (proteins : List FASTAEntry)
    (prot_ids : List ProteinIdentification) (pep_ids : List PeptideIdentification)
    (r : DBResult) (h1 : proteins ≠ []) (h2 : pep_ids ≠ [])
    (hdb : buildProtDB cfg proteins = Except.ok r) :
    run cfg flt proteins prot_ids pep_ids = runAfterDB cfg flt r prot_ids pep_ids := by
  unfold run
  rw [if_neg h1, if_neg h2, hdb]

theorem run_eq_error (cfg : Config) (flt : Filt) (proteins : List FASTAEntry)
    (prot_ids : List ProteinIdentification) (pep_ids : List PeptideIdentification)
    (p : List FASTAEntry) (h1 : proteins ≠ []) (h2 : pep_ids ≠ [])
    (hdb : buildProtDB cfg proteins = Except.error p) :
    run cfg flt proteins prot_ids pep_ids =
      (ExitCodes.DATABASE_CONTAINS_MULTIPLES, p, prot_ids, pep_ids) := by
  unfold run
  rw [if_neg h1, if_neg h2, hdb]

/-- C4: when an accession repeats with a byte-identical normalized
sequence the duplicate entry is dropped, so on a successful build the
corpus has pairwise distinct accessions, corresponds 1:1 with the
surviving entries, and its length is the input length minus the number
of recorded duplicate accessions; when an accession repeats with a
differing normalized sequence, run returns DATABASE_CONTAINS_MULTIPLES
and the identification output (prot_ids, pep_ids) is untouched. -/
theorem duplicate_handling (cfg : Config) :
    (∀ (proteins : List FASTAEntry) (r : DBResult),
      buildProtDB cfg proteins = Except.ok r →
      (r.survivors.map (fun e => e.identifier)).Nodup ∧
        r.prot_DB = r.survivors.map (fun e => normalizeSeq cfg.IL_equivalent e.sequence) ∧
        r.survivors.length + r.duplicate_accessions.length = proteins.length) ∧
    (∀ (flt : Filt) (proteins : List FASTAEntry)
      (prot_ids : List ProteinIdentification) (pep_ids : List PeptideIdentification)
      (pre : List FASTAEntry) (e : FASTAEntry) (mid : List FASTAEntry)
      (e2 : FASTAEntry) (post : List FASTAEntry),
      proteins = pre ++ (e :: (mid ++ (e2 :: post))) →
      (∀ x ∈ pre, x.identifier ≠ e.identifier) →
      e2.identifier = e.identifier →
      normalizeSeq cfg.IL_equivalent e2.sequence ≠ normalizeSeq cfg.IL_equivalent e.sequence →
      pep_ids ≠ [] →
      (run cfg flt proteins prot_ids pep_ids).1 = ExitCodes.DATABASE_CONTAINS_MULTIPLES ∧
        (run cfg flt proteins prot_ids pep_ids).2.2.1 = prot_ids ∧
        (run cfg flt proteins prot_ids pep_ids).2.2.2 = pep_ids) := by
  constructor
  · intro proteins r hr
    have h := buildProtDBAux_ok cfg.IL_equivalent proteins [] [] [] [] r hr rfl
      (by simp) (by intro s; simp [lookupA])
    rcases h with ⟨h1, h2, h3, _⟩
    exact ⟨h2, h1, by simpa using h3⟩
  · intro flt proteins prot_ids pep_ids pre e mid e2 post hprot hpre hid hne hpep
    have hconf := buildProtDBAux_conflict_top cfg.IL_equivalent pre e mid e2 post
      [] [] [] [] hpre hid hne rfl rfl
    rcases hconf with ⟨p, hp⟩
    have hdb : buildProtDB cfg proteins = Except.error p := by
      rw [hprot, buildProtDB]
      exact hp
    have h1 : proteins ≠ [] := by
      rw [hprot]
      intro hcontr
      exact absurd hcontr (by simp)
    rw [run_eq_error cfg flt proteins prot_ids pep_ids p h1 hpep hdb]
    exact ⟨rfl, rfl, rfl⟩

/-- Closed witness for duplicate_handling: both the identical-duplicate
path (corpus shrinks by one, accessions unique) and the conflicting
path (run aborts with DATABASE_CONTAINS_MULTIPLES, output untouched)
at concrete databases. -/
theorem duplicate_handling_witness :
    (buildProtDB exCfgWarn exProtsDup =
        Except.ok ⟨[⟨"P1", "", "AAA"⟩], ["AAA"], [("P1", 0)], ["P1"]⟩) ∧
    ((([⟨"P1", "", "AAA"⟩] : List FASTAEntry).map (fun e => e.identifier)).Nodup ∧
      ["AAA"] = ([⟨"P1", "", "AAA"⟩] : List FASTAEntry).map
        (fun e => normalizeSeq exCfgWarn.IL_equivalent e.sequence) ∧
      ([⟨"P1", "", "AAA"⟩] : List FASTAEntry).length + (["P1"] : List String).length =
        exProtsDup.length) ∧
    ((run exCfgWarn fltAll exProtsConf exPidsEmpty exPepsABC).1 =
        ExitCodes.DATABASE_CONTAINS_MULTIPLES ∧
      (run exCfgWarn fltAll exProtsConf exPidsEmpty exPepsABC).2.2.1 = exPidsEmpty ∧
      (run exCfgWarn fltAll exProtsConf exPidsEmpty exPepsABC).2.2.2 = exPepsABC) :=
  ⟨by decide,
   (duplicate_handling exCfgWarn).1 exProtsDup
     ⟨[⟨"P1", "", "AAA"⟩], ["AAA"], [("P1", 0)], ["P1"]⟩ (by decide),
   (duplicate_handling exCfgWarn).2 fltAll exProtsConf exPidsEmpty exPepsABC
     [] ⟨"P1", "", "AAA"⟩ [] ⟨"P1", "", "BBB"⟩ [] (by decide) (by decide)
     (by decide) (by decide) (by decide)⟩

/-- C5 is false as stated: with a duplicated accession in the database,
run erases the duplicate entry from the caller's protein list in place,
so the list after the call differs from the list before it. -/
theorem proteins_mutated_counterexample :
    (run exCfgWarn fltAll exProtsDup exPidsEmpty exPepsABC).2.1 =
        [⟨"P1", "", "AAA"⟩] ∧
      exProtsDup ≠ [⟨"P1", "", "AAA"⟩] := by
  constructor
  · decide
  · decide

/-- C5 (amended): the caller's protein list is read-only except for the
dedup erasures: on any successful database build the returned protein
list is a subsequence of the input, and when all accessions are
pairwise distinct it is returned exactly unchanged. -/
theorem proteins_erase_only (cfg : Config) (flt : Filt)
    (proteins : List FASTAEntry) (prot_ids : List ProteinIdentification)
    (pep_ids : List PeptideIdentification) :
    (∀ r : DBResult, buildProtDB cfg proteins = Except.ok r →
      (run cfg flt proteins prot_ids pep_ids).2.1.Sublist proteins) ∧
    ((proteins.map (fun e => e.identifier)).Nodup →
      (run cfg flt proteins prot_ids pep_ids).2.1 = proteins) := by
  constructor
  · intro r hr
    by_cases h1 : proteins = []
    · subst h1
      simp [run]
    · by_cases h2 : pep_ids = []
      · have : (run cfg flt proteins prot_ids pep_ids).2.1 = proteins := by
          unfold run
          rw [if_neg h1, if_pos h2]
        rw [this]
      · rw [run_eq_runAfterDB cfg flt proteins prot_ids pep_ids r h1 h2 hr,
          runAfterDB_proteins]
        rcases (buildProtDBAux_ok cfg.IL_equivalent proteins [] [] [] [] r hr rfl
          (by simp) (by intro s; simp [lookupA])) with ⟨_, _, _, t, ht, hsub⟩
        rw [ht]
        simpa using hsub
  · intro hnd
    by_cases h1 : proteins = []
    · subst h1
      simp [run]
    · by_cases h2 : pep_ids = []
      · unfold run
        rw [if_neg h1, if_pos h2]
      · rcases buildProtDBAux_nodup cfg.IL_equivalent proteins [] [] [] []
          (by simpa using hnd) (by intro s; simp [lookupA]) with ⟨r, hr, hs, _⟩
        rw [run_eq_runAfterDB cfg flt proteins prot_ids pep_ids r h1 h2 hr,
          runAfterDB_proteins, hs]
        simp

/-- Closed witness for proteins_erase_only: a database with distinct
accessions passes through run unchanged. -/
theorem proteins_erase_only_witness :
    ((exProtsABC.map (fun e => e.identifier)).Nodup) ∧
      (run exCfgWarn fltAll exProtsABC exPidsEmpty exPepsABC).2.1 = exProtsABC :=
  ⟨by decide,
   (proteins_erase_only exCfgWarn fltAll exProtsABC exPidsEmpty exPepsABC).2
     (by decide)⟩

theorem runAfterDB_pep_ids (cfg : Config) (flt : Filt) (r : DBResult)
    (prot_ids : List ProteinIdentification) (pep_ids : List PeptideIdentification) :
    (runAfterDB cfg flt r prot_ids pep_ids).2.2.2 = (aggOf cfg flt r prot_ids pep_ids).2 := by
  simp only [runAfterDB]
  split
  · rfl
  · split <;> rfl

theorem run_pep_ids_eq (cfg : Config) (flt : Filt) (proteins : List FASTAEntry)
    (prot_ids : List ProteinIdentification) (pep_ids : List PeptideIdentification)
    (r : DBResult) (h1 : proteins ≠ []) (h2 : pep_ids ≠ [])
    (hdb : buildProtDB cfg proteins = Except.ok r) :
    (run cfg flt proteins prot_ids pep_ids).2.2.2 = (aggOf cfg flt r prot_ids pep_ids).2 := by
  rw [run_eq_runAfterDB cfg flt proteins prot_ids pep_ids r h1 h2 hdb,
    runAfterDB_pep_ids]

theorem stepHit_pep_idx (cfg : Config) (proteins : List FASTAEntry)
    (mm : Nat → List PeptideProteinMatchInformation) (run_idx : Nat)
    (st : AggState) (h : PeptideHit) :
    (stepHit cfg proteins mm run_idx st h).1.pep_idx = st.pep_idx + 1 := rfl

theorem stepHit_evidences (cfg : Config) (proteins : List FASTAEntry)
    (mm : Nat → List PeptideProteinMatchInformation) (run_idx : Nat)
    (st : AggState) (h : PeptideHit) :
    (stepHit cfg proteins mm run_idx st h).2.evidences =
      evidencesFor proteins mm st.pep_idx h := rfl

/-- Generic lifting of a per-hit property through the aggregation pass:
if every step from a state satisfying the invariant yields an output hit
satisfying P and keeps the invariant, then every hit of the output
records satisfies P. -/
theorem aggregate_forall_hits (cfg : Config) (proteins : List FASTAEntry)
    (mm : Nat → List PeptideProteinMatchInformation) (runmap : List (String × Nat))
    (pep_ids : List PeptideIdentification) (I : AggState → Prop) (P : PeptideHit → Prop)
    (hstep : ∀ run_idx st h, I st →
      I (stepHit cfg proteins mm run_idx st h).1 ∧
        P (stepHit cfg proteins mm run_idx st h).2)
    (hI : I {}) :
    ∀ pid ∈ (aggregate cfg proteins mm runmap pep_ids).2, ∀ h ∈ pid.hits, P h := by
  have hmain := mapAccumL_invariant (stepRun cfg proteins mm runmap) I
    (fun pid => ∀ h ∈ pid.hits, P h) ?_ pep_ids {} hI
  · exact hmain.2
  · intro s pid hs
    have hinner := mapAccumL_invariant
      (stepHit cfg proteins mm (lookupD runmap pid.identifier 0)) I P
      (hstep (lookupD runmap pid.identifier 0)) pid.hits s hs
    exact ⟨hinner.1, hinner.2⟩

theorem uniqLabel_mem (n : Nat) :
    uniqLabel n ∈ (["unique", "non-unique", "unmatched"] : List String) := by
  unfold uniqLabel
  split
  · simp
  · split <;> simp

theorem stepHit_protein_references (cfg : Config) (proteins : List FASTAEntry)
    (mm : Nat → List PeptideProteinMatchInformation) (run_idx : Nat)
    (st : AggState) (h : PeptideHit) :
    (stepHit cfg proteins mm run_idx st h).2.protein_references =
      uniqLabel (extractProteinAccessions (stepHit cfg proteins mm run_idx st h).2).length :=
  rfl

/-- C1 (amended): run classifies uniqueness by the number of distinct
protein accessions among a hit's evidences, not by the number of
evidences: every processed hit ends with protein_references equal to
uniqLabel of its distinct-accession count, which is exactly one of
unique, non-unique, unmatched. -/
theorem uniqueness_classification (cfg : Config) (flt : Filt)
    (proteins : List FASTAEntry) (prot_ids : List ProteinIdentification)
    (pep_ids : List PeptideIdentification) (r : DBResult)
    (h1 : proteins ≠ []) (h2 : pep_ids ≠ [])
    (hdb : buildProtDB cfg proteins = Except.ok r) :
    ∀ pid ∈ (run cfg flt proteins prot_ids pep_ids).2.2.2, ∀ h ∈ pid.hits,
      h.protein_references = uniqLabel (extractProteinAccessions h).length ∧
        h.protein_references ∈ (["unique", "non-unique", "unmatched"] : List String) := by
  rw [run_pep_ids_eq cfg flt proteins prot_ids pep_ids r h1 h2 hdb]
  apply aggregate_forall_hits cfg r.survivors _ (buildRunMap prot_ids) pep_ids
    (fun _ => True)
    (fun h => h.protein_references = uniqLabel (extractProteinAccessions h).length ∧
      h.protein_references ∈ (["unique", "non-unique", "unmatched"] : List String))
  · intro run_idx st h _
    refine ⟨trivial, stepHit_protein_references cfg r.survivors _ run_idx st h, ?_⟩
    rw [stepHit_protein_references]
    exact uniqLabel_mem _
  · trivial

/-- Closed witness for uniqueness_classification at a concrete input. -/
theorem uniqueness_classification_witness :
    (exProtsABC ≠ []) ∧ (exPepsABC ≠ []) ∧
      (buildProtDB exCfgWarn exProtsABC =
        Except.ok ⟨[⟨"P1", "", "ABC"⟩], ["ABC"], [("P1", 0)], []⟩) ∧
      ∀ pid ∈ (run exCfgWarn fltAll exProtsABC exPidsEmpty exPepsABC).2.2.2,
        ∀ h ∈ pid.hits,
          h.protein_references = uniqLabel (extractProteinAccessions h).length ∧
            h.protein_references ∈ (["unique", "non-unique", "unmatched"] : List String) :=
  ⟨by decide, by decide, by decide,
   uniqueness_classification exCfgWarn fltAll exProtsABC exPidsEmpty exPepsABC
     ⟨[⟨"P1", "", "ABC"⟩], ["ABC"], [("P1", 0)], []⟩
     (by decide) (by decide) (by decide)⟩

/-- C1 is false as stated: a hit whose peptide occurs twice in the same
protein gets two evidences yet is classified unique, because the code
counts distinct accessions (set of String), not evidences. -/
theorem uniqueness_by_evidence_counterexample :
    ((run exCfgWarn fltAll exProtsTwice exPidsEmpty exPepsABC).2.2.2.map
        (fun pid => pid.hits.map (fun h => (h.evidences.length, h.protein_references)))) =
      [[(2, "unique")]] := by
  decide

theorem lookupA_cacheInsert (cfg : Config) (c : List (String × Bool))
    (acc a : String) :
    lookupA (cacheInsert cfg c acc) a =
      match lookupA c a with
      | some b => some b
      | none => if acc = a then some (accIsDecoy cfg acc) else none := by
  unfold cacheInsert
  cases hl : lookupA c acc with
  | some v =>
    cases hla : lookupA c a with
    | some b => simp [hla]
    | none =>
      by_cases h : acc = a
      · subst h
        rw [hla] at hl
        cases hl
      · simp [hla, h]
  | none =>
    rw [lookupA_append]
    cases hla : lookupA c a with
    | some b => simp
    | none =>
      show lookupA ((acc, accIsDecoy cfg acc) :: []) a =
        (if acc = a then some (accIsDecoy cfg acc) else none)
      rw [lookupA]
      by_cases h : acc = a
      · rw [if_pos h, if_pos h]
      · rw [if_neg h, if_neg h, lookupA]

theorem cacheOK_insert (cfg : Config) (c : List (String × Bool)) (acc : String)
    (hOK : ∀ a b, lookupA c a = some b → b = accIsDecoy cfg a) :
    ∀ a b, lookupA (cacheInsert cfg c acc) a = some b → b = accIsDecoy cfg a := by
  intro a b hab
  rw [lookupA_cacheInsert] at hab
  cases hla : lookupA c a with
  | some b2 =>
    rw [hla] at hab
    simp only at hab
    injection hab with hab2
    exact hab2 ▸ hOK a b2 hla
  | none =>
    rw [hla] at hab
    simp only at hab
    by_cases h : acc = a
    · rw [if_pos h] at hab
      injection hab with hab2
      rw [← hab2, h]
    · rw [if_neg h] at hab
      cases hab

theorem cacheInsert_isSome_mono (cfg : Config) (c : List (String × Bool))
    (acc a : String) (h : (lookupA c a).isSome = true) :
    (lookupA (cacheInsert cfg c acc) a).isSome = true := by
  rw [lookupA_cacheInsert]
  cases hla : lookupA c a with
  | some b => rfl
  | none => rw [hla] at h; cases h

theorem cacheInsert_isSome_self (cfg : Config) (c : List (String × Bool))
    (acc : String) :
    (lookupA (cacheInsert cfg c acc) acc).isSome = true := by
  rw [lookupA_cacheInsert]
  cases hla : lookupA c acc with
  | some b => rfl
  | none => simp

theorem cacheOK_foldl (cfg : Config) (proteins : List FASTAEntry) :
    ∀ (ms : List PeptideProteinMatchInformation) (c : List (String × Bool)),
      (∀ a b, lookupA c a = some b → b = accIsDecoy cfg a) →
      ∀ a b, lookupA (ms.foldl (fun c m => cacheInsert cfg c (evAccession proteins m)) c) a =
          some b → b = accIsDecoy cfg a := by
  intro ms
  induction ms with
  | nil => intro c hOK; exact hOK
  | cons m t ih =>
    intro c hOK
    exact ih (cacheInsert cfg c (evAccession proteins m))
      (cacheOK_insert cfg c (evAccession proteins m) hOK)

theorem foldl_insert_isSome_mono (cfg : Config) (proteins : List FASTAEntry) :
    ∀ (ms : List PeptideProteinMatchInformation) (c : List (String × Bool)) (a : String),
      (lookupA c a).isSome = true →
      (lookupA (ms.foldl (fun c m => cacheInsert cfg c (evAccession proteins m)) c) a).isSome = true := by
  intro ms
  induction ms with
  | nil => intro c a h; exact h
  | cons m t ih =>
    intro c a h
    exact ih (cacheInsert cfg c (evAccession proteins m)) a
      (cacheInsert_isSome_mono cfg c (evAccession proteins m) a h)

theorem foldl_insert_isSome_mem (cfg : Config) (proteins : List FASTAEntry) :
    ∀ (ms : List PeptideProteinMatchInformation) (c : List (String × Bool))
      (m : PeptideProteinMatchInformation), m ∈ ms →
      (lookupA (ms.foldl (fun c m => cacheInsert cfg c (evAccession proteins m)) c)
        (evAccession proteins m)).isSome = true := by
  intro ms
  induction ms with
  | nil => intro c m hm; simp at hm
  | cons m0 t ih =>
    intro c m hm
    rcases List.mem_cons.mp hm with hm | hm
    · subst hm
      exact foldl_insert_isSome_mono cfg proteins t _ _
        (cacheInsert_isSome_self cfg c (evAccession proteins m))
    · exact ih _ m hm

theorem lookupD_eq_accIsDecoy (cfg : Config) (c : List (String × Bool)) (a : String)
    (hOK : ∀ a b, lookupA c a = some b → b = accIsDecoy cfg a)
    (hs : (lookupA c a).isSome = true) :
    lookupD c a false = accIsDecoy cfg a := by
  unfold lookupD
  cases hl : lookupA c a with
  | some b =>
    simpa using hOK a b hl
  | none => rw [hl] at hs; cases hs

theorem any_congr {α : Type} (l : List α) (f g : α → Bool)
    (h : ∀ a ∈ l, f a = g a) : l.any f = l.any g := by
  induction l with
  | nil => rfl
  | cons x t ih =>
    simp only [List.any_cons]
    rw [h x (List.mem_cons_self x t), ih (fun a ha => h a (List.mem_cons_of_mem x ha))]

theorem tdLabelOf_mem (cfg : Config) (accs : List String) :
    tdLabelOf cfg accs ∈ (["target+decoy", "target", "decoy", ""] : List String) := by
  simp only [tdLabelOf, tdOf]
  split
  · simp
  · split
    · simp
    · split <;> simp

theorem stepHit_accs_mem (cfg : Config) (proteins : List FASTAEntry)
    (mm : Nat → List PeptideProteinMatchInformation) (run_idx : Nat)
    (st : AggState) (h : PeptideHit) :
    ∀ a ∈ extractProteinAccessions (stepHit cfg proteins mm run_idx st h).2,
      ∃ m ∈ mm st.pep_idx, a = evAccession proteins m := by
  intro a ha
  have ha2 : a ∈ (mm st.pep_idx).map (fun m => evAccession proteins m) := by
    have he : extractProteinAccessions (stepHit cfg proteins mm run_idx st h).2 =
        ((mm st.pep_idx).map (fun m => evAccession proteins m)).dedup := by
      show ((evidencesFor proteins mm st.pep_idx h).map (fun e => e.accession)).dedup = _
      rw [evidencesFor, List.map_map]
      rfl
    rw [he] at ha
    exact List.mem_dedup.mp ha
  rcases List.mem_map.mp ha2 with ⟨m, hm, hma⟩
  exact ⟨m, hm, hma.symm⟩

/-- The per-hit target/decoy classification: from a coherent decoy cache
the step yields a coherent cache, and the output hit's target_decoy meta
value is the pure label determined by its evidence accessions. -/
theorem stepHit_target_decoy (cfg : Config) (proteins : List FASTAEntry)
    (mm : Nat → List PeptideProteinMatchInformation) (run_idx : Nat)
    (st : AggState) (h : PeptideHit)
    (hOK : ∀ a b, lookupA st.protein_is_decoy a = some b → b = accIsDecoy cfg a) :
    (∀ a b, lookupA (stepHit cfg proteins mm run_idx st h).1.protein_is_decoy a = some b →
      b = accIsDecoy cfg a) ∧
    (stepHit cfg proteins mm run_idx st h).2.target_decoy =
      tdLabelOf cfg (extractProteinAccessions (stepHit cfg proteins mm run_idx st h).2) := by
  have hOK2 : ∀ a b,
      lookupA (stepHit cfg proteins mm run_idx st h).1.protein_is_decoy a = some b →
        b = accIsDecoy cfg a :=
    cacheOK_foldl cfg proteins (mm st.pep_idx) st.protein_is_decoy hOK
  refine ⟨hOK2, ?_⟩
  have hlook : ∀ a ∈ extractProteinAccessions (stepHit cfg proteins mm run_idx st h).2,
      lookupD (stepHit cfg proteins mm run_idx st h).1.protein_is_decoy a false =
        accIsDecoy cfg a := by
    intro a ha
    rcases stepHit_accs_mem cfg proteins mm run_idx st h a ha with ⟨m, hm, hma⟩
    apply lookupD_eq_accIsDecoy cfg _ a hOK2
    rw [hma]
    exact foldl_insert_isSome_mem cfg proteins (mm st.pep_idx) st.protein_is_decoy m hm
  have hd : (extractProteinAccessions (stepHit cfg proteins mm run_idx st h).2).any
        (fun a => lookupD (stepHit cfg proteins mm run_idx st h).1.protein_is_decoy a false) =
      (extractProteinAccessions (stepHit cfg proteins mm run_idx st h).2).any
        (fun a => accIsDecoy cfg a) :=
    any_congr _ _ _ (fun a ha => hlook a ha)
  have ht : (extractProteinAccessions (stepHit cfg proteins mm run_idx st h).2).any
        (fun a => !(lookupD (stepHit cfg proteins mm run_idx st h).1.protein_is_decoy a false)) =
      (extractProteinAccessions (stepHit cfg proteins mm run_idx st h).2).any
        (fun a => !(accIsDecoy cfg a)) :=
    any_congr _ _ _ (fun a ha => by rw [hlook a ha])
  show (if (extractProteinAccessions (stepHit cfg proteins mm run_idx st h).2).any
          (fun a => lookupD (stepHit cfg proteins mm run_idx st h).1.protein_is_decoy a false) &&
        (extractProteinAccessions (stepHit cfg proteins mm run_idx st h).2).any
          (fun a => !(lookupD (stepHit cfg proteins mm run_idx st h).1.protein_is_decoy a false))
      then "target+decoy"
      else if (extractProteinAccessions (stepHit cfg proteins mm run_idx st h).2).any
          (fun a => !(lookupD (stepHit cfg proteins mm run_idx st h).1.protein_is_decoy a false))
      then "target"
      else if (extractProteinAccessions (stepHit cfg proteins mm run_idx st h).2).any
          (fun a => lookupD (stepHit cfg proteins mm run_idx st h).1.protein_is_decoy a false)
      then "decoy"
      else "") = _
  rw [hd, ht]
  rfl

/-- C2: every processed peptide hit's target_decoy meta value is the
pure label of its evidence accessions: target+decoy when both a decoy
and a non-decoy accession occur, target when a non-decoy occurs, decoy
when a decoy occurs, and the empty string (no label set) when the hit
has zero evidence. -/
theorem target_decoy_classification (cfg : Config) (flt : Filt)
    (proteins : List FASTAEntry) (prot_ids : List ProteinIdentification)
    (pep_ids : List PeptideIdentification) (r : DBResult)
    (h1 : proteins ≠ []) (h2 : pep_ids ≠ [])
    (hdb : buildProtDB cfg proteins = Except.ok r) :
    ∀ pid ∈ (run cfg flt proteins prot_ids pep_ids).2.2.2, ∀ h ∈ pid.hits,
      h.target_decoy = tdLabelOf cfg (extractProteinAccessions h) ∧
        (h.evidences = [] → h.target_decoy = "") ∧
        h.target_decoy ∈ (["target+decoy", "target", "decoy", ""] : List String) := by
  rw [run_pep_ids_eq cfg flt proteins prot_ids pep_ids r h1 h2 hdb]
  apply aggregate_forall_hits cfg r.survivors _ (buildRunMap prot_ids) pep_ids
    (fun st => ∀ a b, lookupA st.protein_is_decoy a = some b → b = accIsDecoy cfg a)
    (fun h => h.target_decoy = tdLabelOf cfg (extractProteinAccessions h) ∧
      (h.evidences = [] → h.target_decoy = "") ∧
      h.target_decoy ∈ (["target+decoy", "target", "decoy", ""] : List String))
  · intro run_idx st h hst
    rcases stepHit_target_decoy cfg r.survivors
        (pep_to_prot flt r.prot_DB (buildPepDB cfg pep_ids)) run_idx st h hst with
      ⟨hOK2, htd⟩
    refine ⟨hOK2, htd, ?_, htd ▸ tdLabelOf_mem cfg _⟩
    intro hev
    rw [htd]
    have hnil : extractProteinAccessions
        (stepHit cfg r.survivors (pep_to_prot flt r.prot_DB (buildPepDB cfg pep_ids))
          run_idx st h).2 = [] := by
      unfold extractProteinAccessions
      rw [hev]
      rfl
    rw [hnil]
    rfl
  · intro a b hab
    cases hab

/-- Closed witness for target_decoy_classification: the target+decoy
scenario with a shared sequence in the target and decoy entries. -/
theorem target_decoy_classification_witness :
    (exProtsTD ≠ []) ∧ (exPepsCDE ≠ []) ∧
      (buildProtDB exCfgWarn exProtsTD =
        Except.ok ⟨exProtsTD, ["ABCDEFG", "ABCDEFG"], [("P1", 0), ("DECOY_P1", 1)], []⟩) ∧
      ∀ pid ∈ (run exCfgWarn fltAll exProtsTD exPidsEmpty exPepsCDE).2.2.2,
        ∀ h ∈ pid.hits,
          h.target_decoy = tdLabelOf exCfgWarn (extractProteinAccessions h) ∧
            (h.evidences = [] → h.target_decoy = "") ∧
            h.target_decoy ∈ (["target+decoy", "target", "decoy", ""] : List String) :=
  ⟨by decide, by decide, by decide,
   target_decoy_classification exCfgWarn fltAll exProtsTD exPidsEmpty exPepsCDE
     ⟨exProtsTD, ["ABCDEFG", "ABCDEFG"], [("P1", 0), ("DECOY_P1", 1)], []⟩
     (by decide) (by decide) (by decide)⟩

/-- Within one record's hits the aggregation assigns evidence lists by
the running ordinal pep_idx, which advances once per hit. -/
theorem stepHits_evidences (cfg : Config) (proteins : List FASTAEntry)
    (mm : Nat → List PeptideProteinMatchInformation) (run_idx : Nat) :
    ∀ (hs : List PeptideHit) (st : AggState),
      (((mapAccumL (stepHit cfg proteins mm run_idx) st hs).2).map (fun h => h.evidences) =
        (List.enumFrom st.pep_idx hs).map (fun ih => evidencesFor proteins mm ih.1 ih.2)) ∧
      (mapAccumL (stepHit cfg proteins mm run_idx) st hs).1.pep_idx =
        st.pep_idx + hs.length := by
  intro hs
  induction hs with
  | nil => intro st; exact ⟨rfl, by simp [mapAccumL]⟩
  | cons h t ih =>
    intro st
    rw [mapAccumL_cons]
    constructor
    · show (stepHit cfg proteins mm run_idx st h).2.evidences ::
          ((mapAccumL (stepHit cfg proteins mm run_idx)
            (stepHit cfg proteins mm run_idx st h).1 t).2).map (fun h => h.evidences) = _
      rw [show List.enumFrom st.pep_idx (h :: t) =
          (st.pep_idx, h) :: List.enumFrom (st.pep_idx + 1) t from rfl]
      rw [List.map_cons]
      rw [stepHit_evidences cfg proteins mm run_idx st h]
      rw [(ih (stepHit cfg proteins mm run_idx st h).1).1]
      rw [stepHit_pep_idx cfg proteins mm run_idx st h]
    · show (mapAccumL (stepHit cfg proteins mm run_idx)
          (stepHit cfg proteins mm run_idx st h).1 t).1.pep_idx = _
      rw [(ih (stepHit cfg proteins mm run_idx st h).1).2,
        stepHit_pep_idx cfg proteins mm run_idx st h]
      simp only [List.length_cons]
      omega

theorem flatHits_cons (pid : PeptideIdentification)
    (rest : List PeptideIdentification) :
    flatHits (pid :: rest) = pid.hits ++ flatHits rest := by
  simp [flatHits]

/-- Across all records the aggregation assigns evidence lists by one
global running ordinal over the flattened hits. -/
theorem aggregate_flat_evidences (cfg : Config) (proteins : List FASTAEntry)
    (mm : Nat → List PeptideProteinMatchInformation) (runmap : List (String × Nat)) :
    ∀ (pep_ids : List PeptideIdentification) (st : AggState),
      ((flatHits (mapAccumL (stepRun cfg proteins mm runmap) st pep_ids).2).map
          (fun h => h.evidences) =
        (List.enumFrom st.pep_idx (flatHits pep_ids)).map
          (fun ih => evidencesFor proteins mm ih.1 ih.2)) ∧
      (mapAccumL (stepRun cfg proteins mm runmap) st pep_ids).1.pep_idx =
        st.pep_idx + (flatHits pep_ids).length := by
  intro pep_ids
  induction pep_ids with
  | nil => intro st; exact ⟨rfl, by simp [mapAccumL, flatHits]⟩
  | cons pid rest ih =>
    intro st
    rw [mapAccumL_cons]
    have hinner := stepHits_evidences cfg proteins mm
      (lookupD runmap pid.identifier 0) pid.hits st
    constructor
    · rw [flatHits_cons pid rest, List.enumFrom_append, List.map_append]
      show (flatHits ((stepRun cfg proteins mm runmap st pid).2 ::
          (mapAccumL (stepRun cfg proteins mm runmap)
            (stepRun cfg proteins mm runmap st pid).1 rest).2)).map (fun h => h.evidences) = _
      rw [flatHits_cons, List.map_append]
      congr 1
      · exact hinner.1
      · rw [(ih (stepRun cfg proteins mm runmap st pid).1).1]
        show (List.enumFrom (mapAccumL (stepHit cfg proteins mm
            (lookupD runmap pid.identifier 0)) st pid.hits).1.pep_idx
          (flatHits rest)).map _ = _
        rw [hinner.2]
    · show (mapAccumL (stepRun cfg proteins mm runmap)
          (stepRun cfg proteins mm runmap st pid).1 rest).1.pep_idx = _
      rw [(ih (stepRun cfg proteins mm runmap st pid).1).2]
      show (mapAccumL (stepHit cfg proteins mm
          (lookupD runmap pid.identifier 0)) st pid.hits).1.pep_idx +
        (flatHits rest).length = _
      rw [hinner.2, flatHits_cons]
      simp
      omega

/-- The index arithmetic of filterMap: the element at input position j,
when kept by the filter, lands at output position j minus the number of
dropped elements before j. -/
theorem filterMap_getElem_shift {α β : Type} (f : α → Option β) :
    ∀ (l : List α) (j : Nat) (a : α) (b : β),
      l[j]? = some a → f a = some b →
      (l.filterMap f)[j - ((l.take j).filter (fun x => (f x).isNone)).length]? =
        some b := by
  intro l
  induction l with
  | nil =>
    intro j a b hj _
    simp at hj
  | cons x xs ih =>
    intro j a b hj hf
    cases j with
    | zero =>
      rw [List.getElem?_cons_zero] at hj
      injection hj with hj
      have hfx : f x = some b := by rw [hj]; exact hf
      simp only [List.take_zero, List.filter_nil, List.length_nil, Nat.sub_zero]
      rw [List.filterMap_cons, hfx]
      simp
    | succ j2 =>
      rw [List.getElem?_cons_succ] at hj
      have hs_le : ((xs.take j2).filter (fun y => (f y).isNone)).length ≤ j2 := by
        refine le_trans (List.length_filter_le _ _) ?_
        rw [List.length_take]
        omega
      cases hfx : f x with
      | none =>
        have hcount : (((x :: xs).take (j2 + 1)).filter (fun y => (f y).isNone)).length =
            ((xs.take j2).filter (fun y => (f y).isNone)).length + 1 := by
          rw [List.take_succ_cons, List.filter_cons]
          simp [hfx]
        rw [hcount, List.filterMap_cons, hfx]
        have harith : j2 + 1 - (((xs.take j2).filter (fun y => (f y).isNone)).length + 1) =
            j2 - ((xs.take j2).filter (fun y => (f y).isNone)).length := by omega
        rw [harith]
        exact ih j2 a b hj hf
      | some c =>
        have hcount : (((x :: xs).take (j2 + 1)).filter (fun y => (f y).isNone)).length =
            ((xs.take j2).filter (fun y => (f y).isNone)).length := by
          rw [List.take_succ_cons, List.filter_cons]
          simp [hfx]
        rw [hcount, List.filterMap_cons, hfx]
        have harith : j2 + 1 - ((xs.take j2).filter (fun y => (f y).isNone)).length =
            (j2 - ((xs.take j2).filter (fun y => (f y).isNone)).length) + 1 := by omega
        rw [harith, List.getElem?_cons_succ]
        exact ih j2 a b hj hf

theorem pepEntry_isNone (cfg : Config) (h : PeptideHit) :
    (pepEntry cfg h).isNone = skipPep cfg h.sequence := by
  simp only [pepEntry, skipPep]
  by_cases hc : (normalizeSeq cfg.IL_equivalent h.sequence).data.contains 'U' = true
  · rw [if_pos hc, hc]
    rfl
  · rw [if_neg hc]
    simp only [Bool.not_eq_true] at hc
    rw [hc]
    rfl

theorem pepEntry_some (cfg : Config) (h : PeptideHit)
    (hskip : skipPep cfg h.sequence = false) :
    pepEntry cfg h = some (normalizeSeq cfg.IL_equivalent h.sequence) := by
  have hc : ¬ ((normalizeSeq cfg.IL_equivalent h.sequence).data.contains 'U' = true) := by
    intro hc2
    unfold skipPep at hskip
    rw [hc2] at hskip
    cases hskip
  simp only [pepEntry]
  rw [if_neg hc]

theorem skippedBefore_eq (cfg : Config) (hs : List PeptideHit) (j : Nat) :
    skippedBefore cfg hs j =
      ((hs.take j).filter (fun x => (pepEntry cfg x).isNone)).length := by
  unfold skippedBefore
  congr 1
  apply List.filter_congr
  intro x _
  rw [pepEntry_isNone]

theorem skippedBefore_le (cfg : Config) (hs : List PeptideHit) (j : Nat) :
    skippedBefore cfg hs j ≤ j := by
  refine le_trans (List.length_filter_le _ _) ?_
  rw [List.length_take]
  omega

/-- C3: the aggregation pass hands every hit the MatchMap entry at its
global running ordinal, while pep_DB indices count only hits not
skipped for the invalid residue U.  Hence every non-skipped hit's own
sequence sits at pep_DB index (ordinal minus the number of preceding
skipped hits): with no skipped hit each hit receives exactly the entry
of its own sequence, and after a skipped hit the ordinal and the hit's
own index differ, so the hit receives the entry of a different
peptide index. -/
theorem evidence_ordinal_assignment (cfg : Config) (flt : Filt)
    (proteins : List FASTAEntry) (prot_ids : List ProteinIdentification)
    (pep_ids : List PeptideIdentification) (r : DBResult)
    (h1 : proteins ≠ []) (h2 : pep_ids ≠ [])
    (hdb : buildProtDB cfg proteins = Except.ok r) :
    ((flatHits (run cfg flt proteins prot_ids pep_ids).2.2.2).map (fun h => h.evidences) =
      (List.enumFrom 0 (flatHits pep_ids)).map (fun ih =>
        evidencesFor r.survivors (pep_to_prot flt r.prot_DB (buildPepDB cfg pep_ids))
          ih.1 ih.2)) ∧
    (∀ (j : Nat) (h : PeptideHit), (flatHits pep_ids)[j]? = some h →
      skipPep cfg h.sequence = false →
      (buildPepDB cfg pep_ids)[j - skippedBefore cfg (flatHits pep_ids) j]? =
        some (normalizeSeq cfg.IL_equivalent h.sequence) ∧
      (0 < skippedBefore cfg (flatHits pep_ids) j →
        j - skippedBefore cfg (flatHits pep_ids) j ≠ j)) ∧
    ((∀ h0 ∈ flatHits pep_ids, skipPep cfg h0.sequence = false) →
      ∀ (j : Nat) (h : PeptideHit), (flatHits pep_ids)[j]? = some h →
        (buildPepDB cfg pep_ids)[j]? =
          some (normalizeSeq cfg.IL_equivalent h.sequence)) := by
  have hshift : ∀ (j : Nat) (h : PeptideHit), (flatHits pep_ids)[j]? = some h →
      skipPep cfg h.sequence = false →
      (buildPepDB cfg pep_ids)[j - skippedBefore cfg (flatHits pep_ids) j]? =
        some (normalizeSeq cfg.IL_equivalent h.sequence) := by
    intro j h hj hskip
    show ((flatHits pep_ids).filterMap (pepEntry cfg))[j -
      skippedBefore cfg (flatHits pep_ids) j]? = _
    rw [skippedBefore_eq]
    exact filterMap_getElem_shift (pepEntry cfg) (flatHits pep_ids) j h _ hj
      (pepEntry_some cfg h hskip)
  refine ⟨?_, ?_, ?_⟩
  · rw [run_pep_ids_eq cfg flt proteins prot_ids pep_ids r h1 h2 hdb]
    exact (aggregate_flat_evidences cfg r.survivors
      (pep_to_prot flt r.prot_DB (buildPepDB cfg pep_ids))
      (buildRunMap prot_ids) pep_ids {}).1
  · intro j h hj hskip
    refine ⟨hshift j h hj hskip, ?_⟩
    intro hpos
    have hle := skippedBefore_le cfg (flatHits pep_ids) j
    omega
  · intro hall j h hj
    have hzero : skippedBefore cfg (flatHits pep_ids) j = 0 := by
      unfold skippedBefore
      rw [List.filter_eq_nil_iff.mpr ?_]
      · rfl
      · intro a ha
        rw [hall a (List.take_subset j (flatHits pep_ids) ha)]
        simp
    have hres := hshift j h hj (hall h (List.getElem?_mem hj))
    rw [hzero] at hres
    simpa using hres

/-- Closed witness for evidence_ordinal_assignment: with the first hit
AUA skipped for U, the second hit CDE sits at pep_DB index 0 while its
running ordinal is 1, so it is served MatchMap entry 1 instead of its
own. -/
theorem evidence_ordinal_assignment_witness :
    (buildPepDB exCfgWarn exPepsSkip)[1 - skippedBefore exCfgWarn (flatHits exPepsSkip) 1]? =
        some (normalizeSeq exCfgWarn.IL_equivalent "CDE") ∧
      (0 < skippedBefore exCfgWarn (flatHits exPepsSkip) 1 →
        1 - skippedBefore exCfgWarn (flatHits exPepsSkip) 1 ≠ 1) :=
  (evidence_ordinal_assignment exCfgWarn fltAll exProtsLong exPidsEmpty exPepsSkip
      ⟨exProtsLong, ["ABCDEF"], [("P1", 0)], []⟩
      (by decide) (by decide) (by decide)).2.1 1 { sequence := "CDE" }
    (by decide) (by decide)

theorem runAfterDB_decoy_error (cfg : Config) (flt : Filt) (r : DBResult)
    (prot_ids : List ProteinIdentification) (pep_ids : List PeptideIdentification)
    (hz : (aggOf cfg flt r prot_ids pep_ids).1.stats.stats_count_m_d +
      (aggOf cfg flt r prot_ids pep_ids).1.stats.stats_count_m_td = 0)
    (he : cfg.missing_decoy_action = "error") :
    runAfterDB cfg flt r prot_ids pep_ids =
      (ExitCodes.UNEXPECTED_RESULT, r.survivors, prot_ids,
        (aggOf cfg flt r prot_ids pep_ids).2) := by
  unfold runAfterDB
  rw [if_pos ⟨hz, he⟩]

theorem runAfterDB_decoy_pass (cfg : Config) (flt : Filt) (r : DBResult)
    (prot_ids : List ProteinIdentification) (pep_ids : List PeptideIdentification)
    (hpass : ¬((aggOf cfg flt r prot_ids pep_ids).1.stats.stats_count_m_d +
        (aggOf cfg flt r prot_ids pep_ids).1.stats.stats_count_m_td = 0 ∧
      cfg.missing_decoy_action = "error")) :
    runAfterDB cfg flt r prot_ids pep_ids =
      (if cfg.allow_unmatched = false ∧
          0 < (aggOf cfg flt r prot_ids pep_ids).1.stats.stats_unmatched
        then ExitCodes.UNEXPECTED_RESULT else ExitCodes.EXECUTION_OK,
       r.survivors, recProtOf cfg flt r prot_ids pep_ids,
       (aggOf cfg flt r prot_ids pep_ids).2) := by
  unfold runAfterDB
  rw [if_neg hpass]
  by_cases hu : cfg.allow_unmatched = false ∧
      0 < (aggOf cfg flt r prot_ids pep_ids).1.stats.stats_unmatched
  · rw [if_pos hu, if_pos hu]
  · rw [if_neg hu, if_neg hu]

theorem bumpUniq_m_d (n : Nat) (s : AggStats) :
    (bumpUniq n s).stats_count_m_d = s.stats_count_m_d := by
  simp only [bumpUniq]
  split
  · rfl
  · split <;> rfl

theorem bumpUniq_m_td (n : Nat) (s : AggStats) :
    (bumpUniq n s).stats_count_m_td = s.stats_count_m_td := by
  simp only [bumpUniq]
  split
  · rfl
  · split <;> rfl

theorem bumpUniq_unmatched (n : Nat) (s : AggStats) :
    (bumpUniq n s).stats_unmatched =
      s.stats_unmatched + (if uniqLabel n = "unmatched" then 1 else 0) := by
  by_cases h1 : n = 1
  · simp [bumpUniq, uniqLabel, h1]
  · by_cases h2 : 1 < n
    · simp [bumpUniq, uniqLabel, h1, h2]
    · simp [bumpUniq, uniqLabel, h1, h2]

theorem bumpTD_decoy_sum (md mt : Bool) (s : AggStats) :
    (bumpTD md mt s).stats_count_m_d + (bumpTD md mt s).stats_count_m_td =
      s.stats_count_m_d + s.stats_count_m_td +
        (if tdOf md mt = "decoy" ∨ tdOf md mt = "target+decoy" then 1 else 0) := by
  cases md <;> cases mt <;> simp [bumpTD, tdOf] <;> omega

theorem bumpTD_unmatched (md mt : Bool) (s : AggStats) :
    (bumpTD md mt s).stats_unmatched = s.stats_unmatched := by
  cases md <;> cases mt <;> simp [bumpTD]

theorem stepHit_count_decoy (cfg : Config) (proteins : List FASTAEntry)
    (mm : Nat → List PeptideProteinMatchInformation) (run_idx : Nat)
    (st : AggState) (h : PeptideHit) :
    (stepHit cfg proteins mm run_idx st h).1.stats.stats_count_m_d +
        (stepHit cfg proteins mm run_idx st h).1.stats.stats_count_m_td =
      st.stats.stats_count_m_d + st.stats.stats_count_m_td +
        (if (stepHit cfg proteins mm run_idx st h).2.target_decoy = "decoy" ∨
            (stepHit cfg proteins mm run_idx st h).2.target_decoy = "target+decoy"
          then 1 else 0) := by
  simp only [stepHit]
  rw [bumpUniq_m_d, bumpUniq_m_td, bumpTD_decoy_sum]

theorem stepHit_count_unmatched (cfg : Config) (proteins : List FASTAEntry)
    (mm : Nat → List PeptideProteinMatchInformation) (run_idx : Nat)
    (st : AggState) (h : PeptideHit) :
    (stepHit cfg proteins mm run_idx st h).1.stats.stats_unmatched =
      st.stats.stats_unmatched +
        (if (stepHit cfg proteins mm run_idx st h).2.protein_references = "unmatched"
          then 1 else 0) := by
  simp only [stepHit]
  rw [bumpUniq_unmatched, bumpTD_unmatched]

/-- Counting through the state-threading map: when each step adds to a
state measure exactly the contribution of its output, the final measure
is the initial one plus the summed contributions. -/
theorem mapAccumL_count {σ α β : Type} (f : σ → α → σ × β) (g : σ → Nat)
    (c : β → Nat) (hstep : ∀ s a, g (f s a).1 = g s + c (f s a).2) :
    ∀ (l : List α) (s : σ),
      g (mapAccumL f s l).1 = g s + ((mapAccumL f s l).2.map c).sum := by
  intro l
  induction l with
  | nil => intro s; simp [mapAccumL]
  | cons a as ih =>
    intro s
    rw [mapAccumL_cons]
    show g (mapAccumL f (f s a).1 as).1 = _
    rw [ih (f s a).1, hstep s a]
    simp only [List.map_cons, List.sum_cons]
    omega

theorem sum_map_flatHits (c : PeptideHit → Nat) :
    ∀ l : List PeptideIdentification,
      ((flatHits l).map c).sum = (l.map (fun pid => (pid.hits.map c).sum)).sum := by
  intro l
  induction l with
  | nil => rfl
  | cons pid rest ih =>
    rw [flatHits_cons, List.map_append, List.sum_append, ih]
    simp

theorem length_filter_eq_sum_indicator {α : Type} (p : α → Bool) :
    ∀ l : List α, (l.filter p).length = (l.map (fun a => if p a then 1 else 0)).sum := by
  intro l
  induction l with
  | nil => rfl
  | cons x xs ih =>
    rw [List.filter_cons]
    by_cases h : p x = true
    · rw [if_pos h]
      have h2 : (if p x = true then (1 : Nat) else 0) = 1 := by rw [if_pos h]
      simp only [List.length_cons, List.map_cons, List.sum_cons, h2, ih]
      omega
    · rw [if_neg h]
      have h2 : (if p x = true then (1 : Nat) else 0) = 0 := by rw [if_neg h]
      simp only [List.map_cons, List.sum_cons, h2, ih]
      omega

/-- The final decoy counters equal the number of output hits labelled
decoy or target+decoy. -/
theorem aggregate_decoy_count (cfg : Config) (proteins : List FASTAEntry)
    (mm : Nat → List PeptideProteinMatchInformation) (runmap : List (String × Nat))
    (pep_ids : List PeptideIdentification) :
    (aggregate cfg proteins mm runmap pep_ids).1.stats.stats_count_m_d +
        (aggregate cfg proteins mm runmap pep_ids).1.stats.stats_count_m_td =
      ((flatHits (aggregate cfg proteins mm runmap pep_ids).2).filter
        (fun h => decide (h.target_decoy = "decoy" ∨ h.target_decoy = "target+decoy"))).length := by
  have hmain := mapAccumL_count (stepRun cfg proteins mm runmap)
    (fun st => st.stats.stats_count_m_d + st.stats.stats_count_m_td)
    (fun pid => (pid.hits.map (fun h =>
      if h.target_decoy = "decoy" ∨ h.target_decoy = "target+decoy" then 1 else 0)).sum)
    ?_ pep_ids {}
  · rw [length_filter_eq_sum_indicator, sum_map_flatHits]
    have hfun : (fun (a : PeptideHit) =>
        if decide (a.target_decoy = "decoy" ∨ a.target_decoy = "target+decoy") = true
          then (1 : Nat) else 0) =
        (fun (a : PeptideHit) =>
          if a.target_decoy = "decoy" ∨ a.target_decoy = "target+decoy"
            then (1 : Nat) else 0) := by
      funext a
      by_cases hc : a.target_decoy = "decoy" ∨ a.target_decoy = "target+decoy"
      · simp [hc]
      · simp [hc]
    rw [hfun]
    simpa using hmain
  · intro s pid
    show (mapAccumL (stepHit cfg proteins mm (lookupD runmap pid.identifier 0)) s pid.hits).1.stats.stats_count_m_d +
        (mapAccumL (stepHit cfg proteins mm (lookupD runmap pid.identifier 0)) s pid.hits).1.stats.stats_count_m_td = _
    exact mapAccumL_count (stepHit cfg proteins mm (lookupD runmap pid.identifier 0))
      (fun st => st.stats.stats_count_m_d + st.stats.stats_count_m_td)
      (fun h => if h.target_decoy = "decoy" ∨ h.target_decoy = "target+decoy" then 1 else 0)
      (fun s2 h => stepHit_count_decoy cfg proteins mm _ s2 h) pid.hits s

/-- The final unmatched counter equals the number of output hits
labelled unmatched. -/
theorem aggregate_unmatched_count (cfg : Config) (proteins : List FASTAEntry)
    (mm : Nat → List PeptideProteinMatchInformation) (runmap : List (String × Nat))
    (pep_ids : List PeptideIdentification) :
    (aggregate cfg proteins mm runmap pep_ids).1.stats.stats_unmatched =
      ((flatHits (aggregate cfg proteins mm runmap pep_ids).2).filter
        (fun h => decide (h.protein_references = "unmatched"))).length := by
  have hmain := mapAccumL_count (stepRun cfg proteins mm runmap)
    (fun st => st.stats.stats_unmatched)
    (fun pid => (pid.hits.map (fun h =>
      if h.protein_references = "unmatched" then 1 else 0)).sum)
    ?_ pep_ids {}
  · rw [length_filter_eq_sum_indicator, sum_map_flatHits]
    have hfun : (fun (a : PeptideHit) =>
        if decide (a.protein_references = "unmatched") = true then (1 : Nat) else 0) =
        (fun (a : PeptideHit) =>
          if a.protein_references = "unmatched" then (1 : Nat) else 0) := by
      funext a
      by_cases hc : a.protein_references = "unmatched"
      · simp [hc]
      · simp [hc]
    rw [hfun]
    simpa using hmain
  · intro s pid
    show (mapAccumL (stepHit cfg proteins mm (lookupD runmap pid.identifier 0)) s pid.hits).1.stats.stats_unmatched = _
    exact mapAccumL_count (stepHit cfg proteins mm (lookupD runmap pid.identifier 0))
      (fun st => st.stats.stats_unmatched)
      (fun h => if h.protein_references = "unmatched" then 1 else 0)
      (fun s2 h => stepHit_count_unmatched cfg proteins mm _ s2 h) pid.hits s

/-- C7: when zero peptide hits across the run classify as decoy
(counting labels decoy and target+decoy — the first conjunct ties the
counter test at line 617 to the labels), an error action returns
UNEXPECTED_RESULT with the protein hits left exactly as passed in (the
reconciled hits are never written), while a warn action proceeds to
completion: the reconciled and annotated protein hits are written and
the final status is decided by the unmatched-peptide check alone. -/
theorem missing_decoy_action_check (cfg : Config) (flt : Filt)
    (proteins : List FASTAEntry) (prot_ids : List ProteinIdentification)
    (pep_ids : List PeptideIdentification) (r : DBResult)
    (h1 : proteins ≠ []) (h2 : pep_ids ≠ [])
    (hdb : buildProtDB cfg proteins = Except.ok r)
    (hz : (aggOf cfg flt r prot_ids pep_ids).1.stats.stats_count_m_d +
      (aggOf cfg flt r prot_ids pep_ids).1.stats.stats_count_m_td = 0) :
    (((flatHits (aggOf cfg flt r prot_ids pep_ids).2).filter
        (fun h => decide (h.target_decoy = "decoy" ∨ h.target_decoy = "target+decoy"))).length = 0) ∧
    (cfg.missing_decoy_action = "error" →
      run cfg flt proteins prot_ids pep_ids =
        (ExitCodes.UNEXPECTED_RESULT, r.survivors, prot_ids,
          (aggOf cfg flt r prot_ids pep_ids).2)) ∧
    (cfg.missing_decoy_action = "warn" →
      (run cfg flt proteins prot_ids pep_ids).2.2.1 =
        recProtOf cfg flt r prot_ids pep_ids ∧
      (run cfg flt proteins prot_ids pep_ids).1 =
        (if cfg.allow_unmatched = false ∧
            0 < (aggOf cfg flt r prot_ids pep_ids).1.stats.stats_unmatched
          then ExitCodes.UNEXPECTED_RESULT else ExitCodes.EXECUTION_OK)) := by
  refine ⟨?_, ?_, ?_⟩
  · have hcount := aggregate_decoy_count cfg r.survivors
      (pep_to_prot flt r.prot_DB (buildPepDB cfg pep_ids)) (buildRunMap prot_ids) pep_ids
    have hz2 : (aggregate cfg r.survivors
        (pep_to_prot flt r.prot_DB (buildPepDB cfg pep_ids)) (buildRunMap prot_ids)
        pep_ids).1.stats.stats_count_m_d +
      (aggregate cfg r.survivors (pep_to_prot flt r.prot_DB (buildPepDB cfg pep_ids))
        (buildRunMap prot_ids) pep_ids).1.stats.stats_count_m_td = 0 := hz
    rw [hcount] at hz2
    exact hz2
  · intro he
    rw [run_eq_runAfterDB cfg flt proteins prot_ids pep_ids r h1 h2 hdb]
    exact runAfterDB_decoy_error cfg flt r prot_ids pep_ids hz he
  · intro hw
    have hpass : ¬((aggOf cfg flt r prot_ids pep_ids).1.stats.stats_count_m_d +
        (aggOf cfg flt r prot_ids pep_ids).1.stats.stats_count_m_td = 0 ∧
      cfg.missing_decoy_action = "error") := by
      rintro ⟨_, he⟩
      rw [hw] at he
      exact absurd he (by decide)
    rw [run_eq_runAfterDB cfg flt proteins prot_ids pep_ids r h1 h2 hdb,
      runAfterDB_decoy_pass cfg flt r prot_ids pep_ids hpass]
    exact ⟨rfl, rfl⟩

/-- Closed witness for missing_decoy_action_check: with no decoy entry
matched and the error action, run aborts with UNEXPECTED_RESULT and the
input protein hits are returned unreconciled. -/
theorem missing_decoy_action_check_witness :
    ((aggOf exCfgErr fltAll ⟨exProtsABC, ["ABC"], [("P1", 0)], []⟩ exPidsEmpty
        exPepsABC).1.stats.stats_count_m_d +
      (aggOf exCfgErr fltAll ⟨exProtsABC, ["ABC"], [("P1", 0)], []⟩ exPidsEmpty
        exPepsABC).1.stats.stats_count_m_td = 0) ∧
    run exCfgErr fltAll exProtsABC exPidsEmpty exPepsABC =
      (ExitCodes.UNEXPECTED_RESULT, exProtsABC, exPidsEmpty,
        (aggOf exCfgErr fltAll ⟨exProtsABC, ["ABC"], [("P1", 0)], []⟩ exPidsEmpty
          exPepsABC).2) :=
  ⟨by decide,
   (missing_decoy_action_check exCfgErr fltAll exProtsABC exPidsEmpty exPepsABC
      ⟨exProtsABC, ["ABC"], [("P1", 0)], []⟩
      (by decide) (by decide) (by decide) (by decide)).2.1 (by decide)⟩

/-- C8 is false as stated: at this input the claim's premises hold
(allow_unmatched is false and the second hit classifies unmatched) and
run does return UNEXPECTED_RESULT, but the missing-decoy check with the
error action aborts first, so the protein-hit lists are returned as
passed in instead of being reconciled (the reconciled value would have
added a hit for P1). -/
theorem unmatched_partial_output_counterexample :
    (run exCfgErr fltAll exProtsABC exPidsEmpty exPepsUnmatched).1 =
        ExitCodes.UNEXPECTED_RESULT ∧
      exCfgErr.allow_unmatched = false ∧
      ((run exCfgErr fltAll exProtsABC exPidsEmpty exPepsUnmatched).2.2.2.map
        (fun pid => pid.hits.map (fun h => h.protein_references))) =
        [["unique", "unmatched"]] ∧
      (run exCfgErr fltAll exProtsABC exPidsEmpty exPepsUnmatched).2.2.1 =
        exPidsEmpty ∧
      (run exCfgErr fltAll exProtsABC exPidsEmpty exPepsUnmatched).2.2.1 ≠
        recProtOf exCfgErr fltAll ⟨exProtsABC, ["ABC"], [("P1", 0)], []⟩
          exPidsEmpty exPepsUnmatched := by
  exact ⟨by decide, by decide, by decide, by decide, by decide⟩

/-- C8 (amended): when allow_unmatched is false, at least one hit
classifies unmatched, and the missing-decoy check does not abort the
run first, run returns UNEXPECTED_RESULT while the partial output has
been written: the peptide records carry the aggregation results and the
protein lists carry the reconciled, decoy-annotated hits.  The second
conjunct ties the unmatched counter to the unmatched labels. -/
theorem unmatched_reported_with_output (cfg : Config) (flt : Filt)
    (proteins : List FASTAEntry) (prot_ids : List ProteinIdentification)
    (pep_ids : List PeptideIdentification) (r : DBResult)
    (h1 : proteins ≠ []) (h2 : pep_ids ≠ [])
    (hdb : buildProtDB cfg proteins = Except.ok r)
    (hall : cfg.allow_unmatched = false)
    (hu : 0 < (aggOf cfg flt r prot_ids pep_ids).1.stats.stats_unmatched)
    (hpass : ¬((aggOf cfg flt r prot_ids pep_ids).1.stats.stats_count_m_d +
        (aggOf cfg flt r prot_ids pep_ids).1.stats.stats_count_m_td = 0 ∧
      cfg.missing_decoy_action = "error")) :
    run cfg flt proteins prot_ids pep_ids =
      (ExitCodes.UNEXPECTED_RESULT, r.survivors,
        recProtOf cfg flt r prot_ids pep_ids,
        (aggOf cfg flt r prot_ids pep_ids).2) ∧
    (aggOf cfg flt r prot_ids pep_ids).1.stats.stats_unmatched =
      ((flatHits (aggOf cfg flt r prot_ids pep_ids).2).filter
        (fun h => decide (h.protein_references = "unmatched"))).length := by
  constructor
  · rw [run_eq_runAfterDB cfg flt proteins prot_ids pep_ids r h1 h2 hdb,
      runAfterDB_decoy_pass cfg flt r prot_ids pep_ids hpass, if_pos ⟨hall, hu⟩]
  · exact aggregate_unmatched_count cfg r.survivors
      (pep_to_prot flt r.prot_DB (buildPepDB cfg pep_ids)) (buildRunMap prot_ids)
      pep_ids

/-- Closed witness for unmatched_reported_with_output: the warn action
lets the run reach the unmatched check; the status is UNEXPECTED_RESULT
and the reconciled protein hits are written. -/
theorem unmatched_reported_with_output_witness :
    (exCfgWarnStrict.allow_unmatched = false) ∧
      (0 < (aggOf exCfgWarnStrict fltAll ⟨exProtsABC, ["ABC"], [("P1", 0)], []⟩
        exPidsEmpty exPepsUnmatched).1.stats.stats_unmatched) ∧
      run exCfgWarnStrict fltAll exProtsABC exPidsEmpty exPepsUnmatched =
        (ExitCodes.UNEXPECTED_RESULT, exProtsABC,
          recProtOf exCfgWarnStrict fltAll ⟨exProtsABC, ["ABC"], [("P1", 0)], []⟩
            exPidsEmpty exPepsUnmatched,
          (aggOf exCfgWarnStrict fltAll ⟨exProtsABC, ["ABC"], [("P1", 0)], []⟩
            exPidsEmpty exPepsUnmatched).2) :=
  ⟨by decide, by decide,
   (unmatched_reported_with_output exCfgWarnStrict fltAll exProtsABC exPidsEmpty
      exPepsUnmatched ⟨exProtsABC, ["ABC"], [("P1", 0)], []⟩
      (by decide) (by decide) (by decide) (by decide) (by decide) (by decide)).1⟩

/-- C6 is false as stated: with write_protein_sequence unset, a
retained protein hit's sequence field is not left unchanged — run
overwrites it with the empty string (the setSequence call at line 655
is unconditional). -/
theorem retained_sequence_cleared_counterexample :
    ((run exCfgWarn fltAll exProtsABC exPidsOld exPepsABC).2.2.1.map
        (fun pid => pid.hits.map (fun h => (h.accession, h.sequence)))) =
      [[("P1", "")]] ∧
      ("" : String) ≠ "OLD" := by
  exact ⟨by decide, by decide⟩

/-- C6 (amended): a retained existing hit is appended in updated form
and its index removed from the master set; the update sets the sequence
field to the corpus sequence when write_protein_sequence is set and
clears it to the empty string otherwise (it is never left unchanged),
while the description is overwritten only when
write_protein_description is set and kept otherwise; the accession is
preserved. -/
theorem reconcile_retained_update (cfg : Config) (proteins : List FASTAEntry)
    (a2p : List (String × Nat)) (hits : List ProteinHit) (ms : List Nat)
    (p_hit : ProteinHit) (pidx : Nat)
    (hl : lookupA a2p p_hit.accession = some pidx) (hm : pidx ∈ ms) :
    reconcileStep cfg proteins a2p (hits, ms) p_hit =
      (hits ++ [retainedHit cfg proteins pidx p_hit], eraseNat pidx ms) ∧
    (cfg.write_protein_sequence = false →
      (retainedHit cfg proteins pidx p_hit).sequence = "") ∧
    (cfg.write_protein_sequence = true →
      (retainedHit cfg proteins pidx p_hit).sequence =
        (proteins.getD pidx default).sequence) ∧
    (cfg.write_protein_description = false →
      (retainedHit cfg proteins pidx p_hit).description = p_hit.description) ∧
    (retainedHit cfg proteins pidx p_hit).accession = p_hit.accession := by
  refine ⟨?_, ?_, ?_, ?_, ?_⟩
  · show (match lookupA a2p p_hit.accession with
      | some pidx =>
        if pidx ∈ ms then
          (hits ++ [retainedHit cfg proteins pidx p_hit], eraseNat pidx ms)
        else
          (if cfg.keep_unreferenced_proteins then hits ++ [p_hit] else hits, ms)
      | none =>
        (if cfg.keep_unreferenced_proteins then hits ++ [p_hit] else hits, ms)) = _
    rw [hl]
    simp only [if_pos hm]
  · intro hw
    by_cases hd : cfg.write_protein_description = true
    · simp [retainedHit, hw, hd]
    · simp [retainedHit, hw, hd]
  · intro hw
    by_cases hd : cfg.write_protein_description = true
    · simp [retainedHit, hw, hd]
    · simp [retainedHit, hw, hd]
  · intro hd
    simp [retainedHit, hd]
  · by_cases hd : cfg.write_protein_description = true
    · simp [retainedHit, hd]
    · simp [retainedHit, hd]

/-- Closed witness for reconcile_retained_update: a hit for P1 with an
old sequence is retained with its sequence cleared when the write flag
is unset. -/
theorem reconcile_retained_update_witness :
    (lookupA [("P1", 0)] (ProteinHit.accession { accession := "P1", sequence := "OLD" }) =
        some 0) ∧
      (0 ∈ ([0] : List Nat)) ∧
      reconcileStep exCfgWarn exProtsABC [("P1", 0)] ([], [0])
          { accession := "P1", sequence := "OLD" } =
        ([retainedHit exCfgWarn exProtsABC 0 { accession := "P1", sequence := "OLD" }],
          eraseNat 0 [0]) ∧
      (retainedHit exCfgWarn exProtsABC 0
        { accession := "P1", sequence := "OLD" }).sequence = "" :=
  ⟨by decide, by decide,
   (reconcile_retained_update exCfgWarn exProtsABC [("P1", 0)] [] [0]
      { accession := "P1", sequence := "OLD" } 0 (by decide) (by decide)).1,
   (reconcile_retained_update exCfgWarn exProtsABC [("P1", 0)] [] [0]
      { accession := "P1", sequence := "OLD" } 0 (by decide) (by decide)).2.1
     (by decide)⟩

theorem annotateDecoys_hits (cache : List (String × Bool))
    (l : List ProteinIdentification) :
    ∀ pid ∈ annotateDecoys cache l, ∀ h ∈ pid.hits,
      h.target_decoy = (if lookupD cache h.accession false then "decoy" else "target") := by
  intro pid hpid h hh
  rcases List.mem_map.mp hpid with ⟨pid0, _, rfl⟩
  rcases List.mem_map.mp hh with ⟨h0, _, rfl⟩
  rfl

theorem lookupA_cacheInsert_domain (cfg : Config) (c : List (String × Bool))
    (acc a : String)
    (h : (lookupA (cacheInsert cfg c acc) a).isSome = true) :
    (lookupA c a).isSome = true ∨ a = acc := by
  rw [lookupA_cacheInsert] at h
  cases hla : lookupA c a with
  | some b => exact Or.inl (by simp [hla])
  | none =>
    rw [hla] at h
    simp only at h
    by_cases hacc : acc = a
    · exact Or.inr hacc.symm
    · rw [if_neg hacc] at h
      cases h

theorem foldl_cacheInsert_domain (cfg : Config) (proteins : List FASTAEntry) :
    ∀ (ms : List PeptideProteinMatchInformation) (c : List (String × Bool)) (a : String),
      (lookupA (ms.foldl (fun c m => cacheInsert cfg c (evAccession proteins m)) c) a).isSome = true →
      (lookupA c a).isSome = true ∨ a ∈ ms.map (fun m => evAccession proteins m) := by
  intro ms
  induction ms with
  | nil => intro c a h; exact Or.inl h
  | cons m t ih =>
    intro c a h
    rcases ih (cacheInsert cfg c (evAccession proteins m)) a h with h2 | h2
    · rcases lookupA_cacheInsert_domain cfg c (evAccession proteins m) a h2 with h3 | h3
      · exact Or.inl h3
      · exact Or.inr (by rw [h3]; simp)
    · exact Or.inr (by simp [h2])

theorem stepHit_cache_domain (cfg : Config) (proteins : List FASTAEntry)
    (mm : Nat → List PeptideProteinMatchInformation) (run_idx : Nat)
    (st : AggState) (h : PeptideHit) (a : String)
    (hs : (lookupA (stepHit cfg proteins mm run_idx st h).1.protein_is_decoy a).isSome = true) :
    (lookupA st.protein_is_decoy a).isSome = true ∨
      a ∈ (stepHit cfg proteins mm run_idx st h).2.evidences.map (fun e => e.accession) := by
  rcases foldl_cacheInsert_domain cfg proteins (mm st.pep_idx) st.protein_is_decoy a hs with
    h2 | h2
  · exact Or.inl h2
  · refine Or.inr ?_
    show a ∈ (evidencesFor proteins mm st.pep_idx h).map (fun e => e.accession)
    rw [evidencesFor, List.map_map]
    exact h2

theorem hits_accs_cache_domain (cfg : Config) (proteins : List FASTAEntry)
    (mm : Nat → List PeptideProteinMatchInformation) (run_idx : Nat) :
    ∀ (hs : List PeptideHit) (st : AggState) (a : String),
      (lookupA (mapAccumL (stepHit cfg proteins mm run_idx) st hs).1.protein_is_decoy a).isSome = true →
      (lookupA st.protein_is_decoy a).isSome = true ∨
        a ∈ (((mapAccumL (stepHit cfg proteins mm run_idx) st hs).2).map
          (fun h => h.evidences.map (fun e => e.accession))).flatten := by
  intro hs
  induction hs with
  | nil => intro st a h; exact Or.inl h
  | cons h0 t ih =>
    intro st a hsm
    rw [mapAccumL_cons] at hsm ⊢
    rcases ih (stepHit cfg proteins mm run_idx st h0).1 a hsm with h2 | h2
    · rcases stepHit_cache_domain cfg proteins mm run_idx st h0 a h2 with h3 | h3
      · exact Or.inl h3
      · refine Or.inr ?_
        simp only [List.map_cons, List.flatten_cons, List.mem_append]
        exact Or.inl h3
    · refine Or.inr ?_
      simp only [List.map_cons, List.flatten_cons, List.mem_append]
      exact Or.inr h2

theorem mem_allEvidenceAccs_cons (a : String) (pid : PeptideIdentification)
    (rest : List PeptideIdentification) :
    a ∈ allEvidenceAccs (pid :: rest) ↔
      a ∈ (pid.hits.map (fun h => h.evidences.map (fun e => e.accession))).flatten ∨
        a ∈ allEvidenceAccs rest := by
  unfold allEvidenceAccs
  rw [flatHits_cons, List.map_append, List.flatten_append, List.mem_append]

theorem aggregate_cache_domain (cfg : Config) (proteins : List FASTAEntry)
    (mm : Nat → List PeptideProteinMatchInformation) (runmap : List (String × Nat)) :
    ∀ (pep_ids : List PeptideIdentification) (st : AggState) (a : String),
      (lookupA (mapAccumL (stepRun cfg proteins mm runmap) st pep_ids).1.protein_is_decoy a).isSome = true →
      (lookupA st.protein_is_decoy a).isSome = true ∨
        a ∈ allEvidenceAccs (mapAccumL (stepRun cfg proteins mm runmap) st pep_ids).2 := by
  intro pep_ids
  induction pep_ids with
  | nil => intro st a h; exact Or.inl h
  | cons pid rest ih =>
    intro st a hsm
    rw [mapAccumL_cons] at hsm ⊢
    rcases ih (stepRun cfg proteins mm runmap st pid).1 a hsm with h2 | h2
    · rcases hits_accs_cache_domain cfg proteins mm (lookupD runmap pid.identifier 0)
          pid.hits st a h2 with h3 | h3
      · exact Or.inl h3
      · refine Or.inr ((mem_allEvidenceAccs_cons a _ _).mpr (Or.inl ?_))
        exact h3
    · exact Or.inr ((mem_allEvidenceAccs_cons a _ _).mpr (Or.inr h2))

theorem run_prot_ids_eq_pass (cfg : Config) (flt : Filt)
    (proteins : List FASTAEntry) (prot_ids : List ProteinIdentification)
    (pep_ids : List PeptideIdentification) (r : DBResult)
    (h1 : proteins ≠ []) (h2 : pep_ids ≠ [])
    (hdb : buildProtDB cfg proteins = Except.ok r)
    (hpass : ¬((aggOf cfg flt r prot_ids pep_ids).1.stats.stats_count_m_d +
        (aggOf cfg flt r prot_ids pep_ids).1.stats.stats_count_m_td = 0 ∧
      cfg.missing_decoy_action = "error")) :
    (run cfg flt proteins prot_ids pep_ids).2.2.1 =
      recProtOf cfg flt r prot_ids pep_ids := by
  rw [run_eq_runAfterDB cfg flt proteins prot_ids pep_ids r h1 h2 hdb,
    runAfterDB_decoy_pass cfg flt r prot_ids pep_ids hpass]

/-- C10: in the final decoy-annotation pass, any surviving protein hit
whose accession occurs in no peptide evidence of the output (an
orphaned hit kept via keep_unreferenced_proteins, for example) is
annotated target regardless of whether its accession carries the decoy
marker, because the lazily built decoy cache has no entry for it and
the Map read defaults to false. -/
theorem orphan_annotated_target (cfg : Config) (flt : Filt)
    (proteins : List FASTAEntry) (prot_ids : List ProteinIdentification)
    (pep_ids : List PeptideIdentification) (r : DBResult)
    (h1 : proteins ≠ []) (h2 : pep_ids ≠ [])
    (hdb : buildProtDB cfg proteins = Except.ok r)
    (hpass : ¬((aggOf cfg flt r prot_ids pep_ids).1.stats.stats_count_m_d +
        (aggOf cfg flt r prot_ids pep_ids).1.stats.stats_count_m_td = 0 ∧
      cfg.missing_decoy_action = "error")) :
    ∀ pid ∈ (run cfg flt proteins prot_ids pep_ids).2.2.1, ∀ h ∈ pid.hits,
      h.accession ∉ allEvidenceAccs (run cfg flt proteins prot_ids pep_ids).2.2.2 →
      h.target_decoy = "target" := by
  rw [run_prot_ids_eq_pass cfg flt proteins prot_ids pep_ids r h1 h2 hdb hpass,
    run_pep_ids_eq cfg flt proteins prot_ids pep_ids r h1 h2 hdb]
  intro pid hpid h hh hna
  have htd := annotateDecoys_hits (aggOf cfg flt r prot_ids pep_ids).1.protein_is_decoy
    (reconcilePass cfg r.survivors r.acc_to_prot
      (aggOf cfg flt r prot_ids pep_ids).1.runidx_to_protidx prot_ids) pid hpid h hh
  have hnone : lookupA (aggOf cfg flt r prot_ids pep_ids).1.protein_is_decoy h.accession = none := by
    cases hl : lookupA (aggOf cfg flt r prot_ids pep_ids).1.protein_is_decoy h.accession with
    | none => rfl
    | some b =>
      have hl2 : (lookupA (mapAccumL (stepRun cfg r.survivors
          (pep_to_prot flt r.prot_DB (buildPepDB cfg pep_ids)) (buildRunMap prot_ids))
          {} pep_ids).1.protein_is_decoy h.accession).isSome = true := by
        show (lookupA (aggOf cfg flt r prot_ids pep_ids).1.protein_is_decoy
          h.accession).isSome = true
        rw [hl]
        rfl
      have hdom := aggregate_cache_domain cfg r.survivors
        (pep_to_prot flt r.prot_DB (buildPepDB cfg pep_ids)) (buildRunMap prot_ids)
        pep_ids {} h.accession hl2
      rcases hdom with h3 | h3
      · exact absurd h3 (by simp [lookupA])
      · exact absurd h3 hna
  rw [htd]
  unfold lookupD
  rw [hnone]
  rfl

/-- Closed witness for orphan_annotated_target: a kept unreferenced hit
whose accession DECOY_X carries the decoy marker is annotated target. -/
theorem orphan_annotated_target_witness :
    (accIsDecoy exCfgKeep "DECOY_X" = true) ∧
      ((run exCfgKeep fltAll exProtsABC exPidsOrphan exPepsABC).2.2.1.map
        (fun pid => pid.hits.map (fun h => (h.accession, h.target_decoy)))) =
        [[("DECOY_X", "target"), ("P1", "target")]] ∧
      ∀ pid ∈ (run exCfgKeep fltAll exProtsABC exPidsOrphan exPepsABC).2.2.1,
        ∀ h ∈ pid.hits,
          h.accession ∉
            allEvidenceAccs (run exCfgKeep fltAll exProtsABC exPidsOrphan exPepsABC).2.2.2 →
          h.target_decoy = "target" :=
  ⟨by decide, by decide,
   orphan_annotated_target exCfgKeep fltAll exProtsABC exPidsOrphan exPepsABC
     ⟨exProtsABC, ["ABC"], [("P1", 0)], []⟩
     (by decide) (by decide) (by decide) (by decide)⟩

end PeptideIndexing
